import Mathlib

/-!
Verification development for the appr incident-management core.

The repository ships the incident-management design as TPRD documents
(`src/docs/tprd/*` and the incident-management TPRD) together with the
frontend sources.  The backend business logic is specified by those
documents: the severity-to-status mapping, the status ranking, the
lifecycle transition table, and the `recalculate_entity_status` /
`calculate_overall_status` / `calculate_product_status` pseudocode are
embedded below directly from the documents.  The orchestration layer
(create / advance / add-remove affected entity / update severity /
timeline recording, executed atomically) is modelled from the spec where
the repository contains only its design description.
-/

namespace Appr

/-- Incident severity, from the incidents table and the incident TPRD:
`minor`, `major`, `critical`. -/
inductive Severity where
  | minor
  | major
  | critical
deriving DecidableEq, Repr, Fintype

/-- Incident lifecycle status, from the incident TPRD state machine:
`investigating`, `identified`, `monitoring`, `resolved`. -/
inductive IncidentStatus where
  | investigating
  | identified
  | monitoring
  | resolved
deriving DecidableEq, Repr, Fintype

/-- Entity operational status values, from the TPRDs:
`operational`, `degraded`, `partial_outage`, `major_outage`. -/
inductive OperationalStatus where
  | operational
  | degraded
  | partial_outage
  | major_outage
deriving DecidableEq, Repr, Fintype

/-- Affected-entity type: service, component or resource. -/
inductive EntityType where
  | service
  | component
  | resource
deriving DecidableEq, Repr, Fintype

/-- Polymorphic entity reference `(entity_type, entity_id)`. -/
structure EntityRef where
  entityType : EntityType
  entityId : Nat
deriving DecidableEq, Repr

/-- Severity-to-status mapping from the incident TPRD business logic:
`critical -> major_outage`, `major -> degraded`, `minor -> degraded`. -/
def severity_to_status : Severity → OperationalStatus
  | .critical => .major_outage
  | .major => .degraded
  | .minor => .degraded

/-- Status severity ranking from the incident TPRD (worst to best):
1. `major_outage` 2. `partial_outage` 3. `degraded` 4. `operational`.
A lower number is worse. -/
def statusRanking : OperationalStatus → Nat
  | .major_outage => 1
  | .partial_outage => 2
  | .degraded => 3
  | .operational => 4

/-- Worse of two statuses under the ranking: replace the accumulator when
the candidate is strictly worse, exactly as the TPRD pseudocode update
`if STATUS_RANKING[status] < STATUS_RANKING[worst]: worst = status`. -/
def worse_of (w s : OperationalStatus) : OperationalStatus :=
  if statusRanking s < statusRanking w then s else w

/-- Worst of a list of statuses, `operational` for the empty list. -/
def worst_of (l : List OperationalStatus) : OperationalStatus :=
  l.foldl worse_of .operational

/-- Numeric rank of severities in their natural order
(`minor < major < critical`), used to state non-downgrade conditions. -/
def sevRank : Severity → Nat
  | .minor => 0
  | .major => 1
  | .critical => 2

theorem statusRanking_inj : ∀ a b : OperationalStatus,
    statusRanking a = statusRanking b → a = b := by decide

theorem worse_of_comm : ∀ a b, worse_of a b = worse_of b a := by decide

theorem worse_of_assoc : ∀ a b c,
    worse_of (worse_of a b) c = worse_of a (worse_of b c) := by decide

theorem worse_of_idem : ∀ a, worse_of a a = a := by decide

theorem worse_of_operational_left : ∀ a, worse_of .operational a = a := by decide

theorem worse_of_operational_right : ∀ a, worse_of a .operational = a := by decide

theorem worse_of_absorb : ∀ a b, statusRanking b ≤ statusRanking a →
    worse_of a b = b := by decide

theorem sts_antitone : ∀ u v : Severity, sevRank u ≤ sevRank v →
    statusRanking (severity_to_status v) ≤ statusRanking (severity_to_status u) := by
  decide

theorem worst_of_nil : worst_of [] = .operational := rfl

theorem foldl_worse_of_init (l : List OperationalStatus) :
    ∀ a, l.foldl worse_of a = worse_of a (worst_of l) := by
  induction l with
  | nil => intro a; simp [worst_of, worse_of_operational_right]
  | cons s t ih =>
    intro a
    simp only [worst_of, List.foldl_cons]
    rw [ih (worse_of a s), ih (worse_of .operational s), worse_of_operational_left,
      worse_of_assoc]

theorem worst_of_cons (s : OperationalStatus) (l : List OperationalStatus) :
    worst_of (s :: l) = worse_of s (worst_of l) := by
  simp only [worst_of, List.foldl_cons]
  rw [foldl_worse_of_init, worse_of_operational_left]
  rfl

theorem worst_of_append (l₁ l₂ : List OperationalStatus) :
    worst_of (l₁ ++ l₂) = worse_of (worst_of l₁) (worst_of l₂) := by
  simp only [worst_of, List.foldl_append]
  rw [foldl_worse_of_init]
  rfl

theorem worst_of_singleton (s : OperationalStatus) : worst_of [s] = s := by
  rw [worst_of_cons, worst_of_nil, worse_of_operational_right]

/-- Incident row, from the `incidents` table of the core-data-models TPRD
(the fields the lifecycle logic reads): id, severity, status,
`resolved_at` (nullable) and the soft-delete marker `deleted_at`. -/
structure Incident where
  id : Nat
  severity : Severity
  status : IncidentStatus
  resolvedAt : Option Nat
  deleted : Bool
deriving DecidableEq, Repr

/-- AffectedEntityLink row `(incident_id, entity_type, entity_id)`. -/
structure Link where
  incidentId : Nat
  entity : EntityRef
deriving DecidableEq, Repr

/-- Timeline entry types: status_change, note, entity_added, entity_removed. -/
inductive EntryType where
  | status_change
  | note
  | entity_added
  | entity_removed
deriving DecidableEq, Repr, Fintype

/-- Timeline entry row, from the `incident_timeline_entries` table. -/
structure TimelineEntry where
  incidentId : Nat
  timestamp : Nat
  entryType : EntryType
  content : String
deriving DecidableEq, Repr

/-- Modelled from the spec: the committed persistent state the incident
core operates on (the backend services are not in the repository).  It
holds the incident rows, AffectedEntityLink rows, timeline entries, the
external catalog's per-entity operational status, a logical clock used
for timestamps, and the next fresh incident id. -/
structure SystemState where
  incidents : List Incident
  links : List Link
  timeline : List TimelineEntry
  entityStatus : EntityRef → OperationalStatus
  clock : Nat
  nextId : Nat

/-- Error taxonomy of the incident core (spec section 7). -/
inductive IncidentError where
  | invalidTransition (current target : IncidentStatus)
  | entityNotFound
  | cascadeWriteFailure (e : EntityRef)
deriving DecidableEq, Repr

/-- Whether some AffectedEntityLink ties incident `iid` to entity `e`. -/
def linkedB (links : List Link) (iid : Nat) (e : EntityRef) : Bool :=
  links.any (fun l => decide (l.incidentId = iid ∧ l.entity = e))

/-- An incident counts as open when non-resolved and not soft-deleted. -/
def openB (i : Incident) : Bool :=
  decide (i.status ≠ .resolved) && !i.deleted

/-- Entities linked to incident `iid`. -/
def entitiesOf (links : List Link) (iid : Nat) : List EntityRef :=
  (links.filter (fun l => decide (l.incidentId = iid))).map Link.entity

/-- Exclusion test used by `recalculate_entity_status`; `none` means the
caller excludes nothing. -/
def exclB : Option Nat → Nat → Bool
  | none, _ => false
  | some x, iid => decide (iid = x)

/-- Embedded from the incident TPRD pseudocode `recalculate_entity_status`:
select the incidents joined to an AffectedEntityLink for the entity,
other than the excluded incident, with status not resolved and not
soft-deleted; return `operational` when none remain, otherwise the worst
mapped status under `STATUS_RANKING`. -/
def recalculate_entity_status (st : SystemState) (e : EntityRef)
    (excluding : Option Nat) : OperationalStatus :=
  let activeIncidents := st.incidents.filter (fun i =>
    linkedB st.links i.id e && !(exclB excluding i.id) &&
      decide (i.status ≠ .resolved) && !i.deleted)
  if activeIncidents.isEmpty then .operational
  else activeIncidents.foldl (fun worst i =>
    let s := severity_to_status i.severity
    if statusRanking s < statusRanking worst then s else worst) .operational

/-- The contributions of a list of incidents to one entity: the mapped
status of every open incident linked to the entity. -/
def contrib (l : List Incident) (links : List Link) (e : EntityRef) :
    List OperationalStatus :=
  (l.filter (fun i => openB i && linkedB links i.id e)).map
    (fun i => severity_to_status i.severity)

/-- The worst status implied for an entity by the currently open
(non-resolved, non-soft-deleted) incidents affecting it, `operational`
when there are none.  This is the formula the spec states as the
cascade invariant. -/
def worstOpen (st : SystemState) (e : EntityRef) : OperationalStatus :=
  worst_of (contrib st.incidents st.links e)

/-- Write oracle standing for the external entity-status collaborator:
`true` means the write of that entity's status succeeds. -/
def allOk : EntityRef → Bool := fun _ => true

/-- Point update of the external status mapping. -/
def setStatusPure (st : SystemState) (e : EntityRef) (s : OperationalStatus) :
    SystemState :=
  { st with entityStatus := fun x => if x = e then s else st.entityStatus x }

/-- Modelled from the spec: `set_operational_status` on the external
catalog collaborator, performed inside the caller's unit of work; the
write fails with `CascadeWriteFailure` when the collaborator is
unreachable for that entity. -/
def setStatusW (wOk : EntityRef → Bool) (st : SystemState) (e : EntityRef)
    (s : OperationalStatus) : Except IncidentError SystemState :=
  if wOk e then .ok (setStatusPure st e s)
  else .error (.cascadeWriteFailure e)

/-- Modelled from the spec: Cascade Engine `apply_impact` — set the
entity's status to the worse of its current status and the status the
incident severity maps to. -/
def apply_impact (wOk : EntityRef → Bool) (st : SystemState) (e : EntityRef)
    (v : Severity) : Except IncidentError SystemState :=
  setStatusW wOk st e (worse_of (st.entityStatus e) (severity_to_status v))

/-- Modelled from the spec: run `apply_impact` for every affected entity
as one batch; the first failing write aborts the whole batch. -/
def cascadeApply (wOk : EntityRef → Bool) (v : Severity) :
    SystemState → List EntityRef → Except IncidentError SystemState
  | st, [] => .ok st
  | st, e :: es =>
    match apply_impact wOk st e v with
    | .ok st1 => cascadeApply wOk v st1 es
    | .error err => .error err

/-- Modelled from the spec: run `recalculate` for every affected entity
as one batch; the first failing write aborts the whole batch. -/
def cascadeRecalc (wOk : EntityRef → Bool) (excluding : Option Nat) :
    SystemState → List EntityRef → Except IncidentError SystemState
  | st, [] => .ok st
  | st, e :: es =>
    match setStatusW wOk st e (recalculate_entity_status st e excluding) with
    | .ok st1 => cascadeRecalc wOk excluding st1 es
    | .error err => .error err

/-- Modelled from the spec: Timeline Recorder `append` — one immutable
entry, timestamped at write time, appended to the history. -/
def appendEntry (st : SystemState) (iid : Nat) (t : EntryType) (c : String) :
    SystemState :=
  { st with timeline := st.timeline ++
      [{ incidentId := iid, timestamp := st.clock, entryType := t, content := c }] }

/-- Legal transition table of the lifecycle state machine, from the
incident TPRD. -/
def allowedNext : IncidentStatus → List IncidentStatus
  | .investigating => [.identified, .monitoring, .resolved]
  | .identified => [.monitoring, .resolved]
  | .monitoring => [.resolved]
  | .resolved => [.investigating]

/-- Look up a live (non-soft-deleted) incident by id. -/
def findIncident (st : SystemState) (iid : Nat) : Option Incident :=
  st.incidents.find? (fun i => decide (i.id = iid) && !i.deleted)

def statusName : IncidentStatus → String
  | .investigating => "investigating"
  | .identified => "identified"
  | .monitoring => "monitoring"
  | .resolved => "resolved"

/-- Content of the automatic status-change entry: the transition
description concatenated with the caller-supplied note. -/
def transitionContent (prev target : IncidentStatus) (note : String) : String :=
  "Status changed from " ++ statusName prev ++ " to " ++ statusName target ++
    ". " ++ note

/-- Modelled from the spec: the Lifecycle State Machine `transition`.
Validates the target against the legal-transition table, updates the
status and `resolved_at`, appends the status-change entry, and invokes
the Cascade Engine: `recalculate` (excluding this incident) when entering
`resolved`, `apply_impact` with the current severity when leaving
`resolved` via reopen.  All of it is one atomic unit of work: an error
anywhere commits nothing. -/
def transition (wOk : EntityRef → Bool) (st : SystemState) (iid : Nat)
    (target : IncidentStatus) (note : String) :
    Except IncidentError SystemState :=
  match findIncident st iid with
  | none => .error .entityNotFound
  | some inc =>
    if target ∈ allowedNext inc.status then
      let newRA : Option Nat :=
        if target = .resolved then some st.clock
        else if inc.status = .resolved then none
        else inc.resolvedAt
      let st1 := { st with incidents := st.incidents.map (fun i =>
        if i.id = iid then { i with status := target, resolvedAt := newRA } else i) }
      let st2 := appendEntry st1 iid .status_change
        (transitionContent inc.status target note)
      if target = .resolved then
        cascadeRecalc wOk (some iid) st2 (entitiesOf st2.links iid)
      else if inc.status = .resolved then
        cascadeApply wOk inc.severity st2 (entitiesOf st2.links iid)
      else .ok st2
    else .error (.invalidTransition inc.status target)

/-- Insert an AffectedEntityLink, keeping the `(incident, entity)` tuple
unique. -/
def addLink (links : List Link) (iid : Nat) (e : EntityRef) : List Link :=
  if linkedB links iid e then links else links ++ [{ incidentId := iid, entity := e }]

def addLinks (iid : Nat) : List Link → List EntityRef → List Link
  | links, [] => links
  | links, e :: es => addLinks iid (addLink links iid e) es

/-- Modelled from the spec: Incident Orchestrator `create` — a fresh
incident in `investigating`, one link per affected entity, one
status-change timeline entry, and `apply_impact` once per affected
entity, all atomically. -/
def createIncident (wOk : EntityRef → Bool) (st : SystemState) (v : Severity)
    (es : List EntityRef) : Except IncidentError SystemState :=
  let iid := st.nextId
  let inc : Incident :=
    { id := iid, severity := v, status := .investigating, resolvedAt := none,
      deleted := false }
  let st1 := { st with
    incidents := st.incidents ++ [inc]
    links := addLinks iid st.links es
    nextId := st.nextId + 1 }
  let st2 := appendEntry st1 iid .status_change
    "Incident created with status: investigating"
  cascadeApply wOk v st2 es

/-- Modelled from the spec: Incident Orchestrator `add_affected_entity` —
no-op when the link exists; otherwise insert the link, append an
entity_added entry, and apply the incident's current impact when the
incident is still open. -/
def addAffectedEntity (wOk : EntityRef → Bool) (st : SystemState) (iid : Nat)
    (e : EntityRef) : Except IncidentError SystemState :=
  match findIncident st iid with
  | none => .error .entityNotFound
  | some inc =>
    if linkedB st.links iid e then .ok st
    else
      let st1 := { st with links := st.links ++ [{ incidentId := iid, entity := e }] }
      let st2 := appendEntry st1 iid .entity_added "Affected entity added"
      if inc.status = .resolved then .ok st2
      else apply_impact wOk st2 e inc.severity

/-- Modelled from the spec: Incident Orchestrator `remove_affected_entity`
— delete the link, append an entity_removed entry, and recalculate that
entity excluding nothing. -/
def removeAffectedEntity (wOk : EntityRef → Bool) (st : SystemState) (iid : Nat)
    (e : EntityRef) : Except IncidentError SystemState :=
  match findIncident st iid with
  | none => .error .entityNotFound
  | some _ =>
    let st1 := { st with links := st.links.filter (fun l =>
      !(decide (l.incidentId = iid ∧ l.entity = e))) }
    let st2 := appendEntry st1 iid .entity_removed "Affected entity removed"
    setStatusW wOk st2 e (recalculate_entity_status st2 e none)

/-- Modelled from the spec: Incident Orchestrator `update_severity` —
set the severity, append the automatic entry, and when the incident is
open rerun `apply_impact` for all affected entities with the new
severity (worsening-only semantics). -/
def updateSeverityOp (wOk : EntityRef → Bool) (st : SystemState) (iid : Nat)
    (v : Severity) : Except IncidentError SystemState :=
  match findIncident st iid with
  | none => .error .entityNotFound
  | some inc =>
    let st1 := { st with incidents := st.incidents.map (fun i =>
      if i.id = iid then { i with severity := v } else i) }
    let st2 := appendEntry st1 iid .status_change "Severity changed"
    if inc.status = .resolved then .ok st2
    else cascadeApply wOk v st2 (entitiesOf st2.links iid)

/-- Modelled from the spec: Incident Orchestrator `add_note` — append a
manual note entry; no cascade effect. -/
def addNoteOp (st : SystemState) (iid : Nat) (content : String) :
    Except IncidentError SystemState :=
  match findIncident st iid with
  | none => .error .entityNotFound
  | some _ => .ok (appendEntry st iid .note content)

/-- The public operations of the Incident Orchestrator.  `advance` with
target `resolved` is resolve and with target `investigating` (from
`resolved`) is reopen; both delegate to the state machine. -/
inductive Op where
  | create (v : Severity) (es : List EntityRef)
  | advance (iid : Nat) (target : IncidentStatus) (note : String)
  | addEntity (iid : Nat) (e : EntityRef)
  | removeEntity (iid : Nat) (e : EntityRef)
  | addNote (iid : Nat) (content : String)
  | updateSeverity (iid : Nat) (v : Severity)

/-- Dispatch one public operation. -/
def applyOp (wOk : EntityRef → Bool) (st : SystemState) :
    Op → Except IncidentError SystemState
  | .create v es => createIncident wOk st v es
  | .advance iid target note => transition wOk st iid target note
  | .addEntity iid e => addAffectedEntity wOk st iid e
  | .removeEntity iid e => removeAffectedEntity wOk st iid e
  | .addNote iid c => addNoteOp st iid c
  | .updateSeverity iid v => updateSeverityOp wOk st iid v

/-- One committed step: a successful operation commits its whole unit of
work and advances the clock; a failed one rolls back and commits
nothing. -/
def stepOp (wOk : EntityRef → Bool) (st : SystemState) (op : Op) : SystemState :=
  match applyOp wOk st op with
  | .ok st1 => { st1 with clock := st1.clock + 1 }
  | .error _ => st

/-- Run a sequence of public operations. -/
def run (wOk : EntityRef → Bool) : SystemState → List Op → SystemState
  | st, [] => st
  | st, op :: ops => run wOk (stepOp wOk st op) ops

/-- The empty initial state: no incidents, every entity operational. -/
def initState : SystemState :=
  { incidents := []
    links := []
    timeline := []
    entityStatus := fun _ => .operational
    clock := 0
    nextId := 0 }

/-- A committed state reachable by public operations with the external
collaborator available. -/
def Reachable (st : SystemState) : Prop :=
  ∃ ops : List Op, run allOk initState ops = st

/-- Operation guard: `update_severity` does not lower the incident's
severity (any other operation passes). -/
def nonDowngradeB (st : SystemState) : Op → Bool
  | .updateSeverity iid v =>
    match findIncident st iid with
    | some inc => decide (sevRank inc.severity ≤ sevRank v)
    | none => true
  | _ => true

/-- Committed states reachable when no `update_severity` call lowers a
severity. -/
inductive NDReachable : SystemState → Prop where
  | init : NDReachable initState
  | step (st : SystemState) (op : Op) (h : NDReachable st)
      (hnd : nonDowngradeB st op = true) : NDReachable (stepOp allOk st op)

/-- Embedded from the public-status-page TPRD: the string-keyed ranking
dictionary `{"operational": 0, "degraded": 1, "partial_outage": 2,
"major_outage": 3}`. -/
def pspRanking (s : String) : Option Nat :=
  if s = "operational" then some 0
  else if s = "degraded" then some 1
  else if s = "partial_outage" then some 2
  else if s = "major_outage" then some 3
  else none

/-- `ranking.get(status, 0)` from the public-status-page pseudocode. -/
def pspRank (s : String) : Nat := (pspRanking s).getD 0

/-- The loop body shared by `calculate_overall_status` and
`calculate_product_status`: keep the status whose looked-up rank is
larger. -/
def pspWorse (worst svc : String) : String :=
  if pspRank svc > pspRank worst then svc else worst

/-- Embedded from the public-status-page TPRD `calculate_product_status`. -/
def calculate_product_status (services : List String) : String :=
  services.foldl pspWorse "operational"

/-- Embedded from the public-status-page TPRD `calculate_overall_status`:
iterate over every service of every product with one shared accumulator. -/
def calculate_overall_status (products : List (List String)) : String :=
  products.foldl (fun worst svcs => svcs.foldl pspWorse worst) "operational"

/-- The four recognised operational-status strings. -/
def knownStatusB (s : String) : Bool :=
  decide (s = "operational") || decide (s = "degraded") ||
    decide (s = "partial_outage") || decide (s = "major_outage")

theorem unknown_pspRank {s : String} (h : knownStatusB s = false) : pspRank s = 0 := by
  simp only [knownStatusB, Bool.or_eq_false_iff, decide_eq_false_iff_not] at h
  obtain ⟨⟨⟨h1, h2⟩, h3⟩, h4⟩ := h
  simp [pspRank, pspRanking, h1, h2, h3, h4]

theorem pspWorse_unknown {w s : String} (h : knownStatusB s = false) :
    pspWorse w s = w := by
  simp [pspWorse, unknown_pspRank h]

theorem pspFoldl_filter (l : List String) :
    ∀ w, l.foldl pspWorse w = (l.filter knownStatusB).foldl pspWorse w := by
  induction l with
  | nil => intro w; rfl
  | cons s t ih =>
    intro w
    cases hk : knownStatusB s with
    | true => simp [List.filter_cons, hk, ih]
    | false => simp [List.filter_cons, hk, pspWorse_unknown hk, ih]

theorem pspOverallFold_filter (ps : List (List String)) :
    ∀ w, ps.foldl (fun worst svcs => svcs.foldl pspWorse worst) w =
      (ps.map (fun l => l.filter knownStatusB)).foldl
        (fun worst svcs => svcs.foldl pspWorse worst) w := by
  induction ps with
  | nil => intro w; rfl
  | cons l t ih =>
    intro w
    simp only [List.map_cons, List.foldl_cons]
    rw [pspFoldl_filter l w, ih]

/-- Claim C10: the worst-status aggregation of the public status page is
total over arbitrary status strings — a status outside the four known
values gets rank 0, the rank of `operational`, so an unrecognised status
never changes (in particular never worsens) the computed aggregate, and
the aggregation never fails. -/
theorem claim_C10 :
    (∀ s : String, s ≠ "operational" → s ≠ "degraded" → s ≠ "partial_outage" →
      s ≠ "major_outage" → pspRank s = 0 ∧ pspRank s = pspRank "operational")
    ∧ (∀ l : List String,
        calculate_product_status l = calculate_product_status (l.filter knownStatusB))
    ∧ (∀ ps : List (List String),
        calculate_overall_status ps =
          calculate_overall_status (ps.map (fun l => l.filter knownStatusB))) := by
  refine ⟨?_, ?_, ?_⟩
  · intro s h1 h2 h3 h4
    have hk : knownStatusB s = false := by
      simp [knownStatusB, h1, h2, h3, h4]
    constructor
    · exact unknown_pspRank hk
    · rw [unknown_pspRank hk]; rfl
  · intro l; exact pspFoldl_filter l "operational"
  · intro ps; exact pspOverallFold_filter ps "operational"

/-- Claim C10 witness at a concrete unknown status string. -/
theorem claim_C10_witness :
    pspRank "maintenance" = 0 ∧
      calculate_product_status ["major_outage", "maintenance"] =
        calculate_product_status (["major_outage", "maintenance"].filter knownStatusB) :=
  ⟨(claim_C10.1 "maintenance" (by decide) (by decide) (by decide) (by decide)).1,
    claim_C10.2.1 ["major_outage", "maintenance"]⟩

/-- Claim C6: `severity_to_status` is the pure total mapping
`critical -> major_outage`, `major -> degraded`, `minor -> degraded`;
being a total Lean function it has no side effects and no failure case,
and it never produces the remaining statuses. -/
theorem claim_C6 :
    severity_to_status .critical = .major_outage
    ∧ severity_to_status .major = .degraded
    ∧ severity_to_status .minor = .degraded
    ∧ (∀ v : Severity,
        severity_to_status v = .major_outage ∨ severity_to_status v = .degraded) := by
  decide

theorem worse_of_rank_le : ∀ a b,
    statusRanking (worse_of a b) ≤ statusRanking a := by decide

theorem worse_of_right_absorb : ∀ a b,
    worse_of (worse_of a b) b = worse_of a b := by decide

theorem apply_impact_allOk (st : SystemState) (e : EntityRef) (v : Severity) :
    apply_impact allOk st e v =
      .ok (setStatusPure st e
        (worse_of (st.entityStatus e) (severity_to_status v))) := rfl

theorem setStatusPure_at (st : SystemState) (e : EntityRef)
    (s : OperationalStatus) : (setStatusPure st e s).entityStatus e = s := by
  simp [setStatusPure]

theorem setStatusPure_ne (st : SystemState) {x e : EntityRef}
    (s : OperationalStatus) (h : x ≠ e) :
    (setStatusPure st e s).entityStatus x = st.entityStatus x := by
  simp [setStatusPure, h]

/-- Claim C5: `apply_impact` sets the entity status to the worse of the
current status and the mapped severity, never strictly improves the
status, and is idempotent for a fixed severity. -/
theorem claim_C5 (st : SystemState) (e : EntityRef) (v : Severity) :
    ∃ st1, apply_impact allOk st e v = .ok st1
      ∧ st1.entityStatus e = worse_of (st.entityStatus e) (severity_to_status v)
      ∧ statusRanking (st1.entityStatus e) ≤ statusRanking (st.entityStatus e)
      ∧ ∃ st2, apply_impact allOk st1 e v = .ok st2
          ∧ st2.entityStatus e = st1.entityStatus e := by
  refine ⟨_, apply_impact_allOk st e v, setStatusPure_at _ _ _, ?_, _,
    apply_impact_allOk _ e v, ?_⟩
  · rw [setStatusPure_at]
    exact worse_of_rank_le _ _
  · rw [setStatusPure_at, setStatusPure_at]
    exact worse_of_right_absorb _ _

theorem recalc_congr {st1 st2 : SystemState} (e : EntityRef) (x : Option Nat)
    (h1 : st1.incidents = st2.incidents) (h2 : st1.links = st2.links) :
    recalculate_entity_status st1 e x = recalculate_entity_status st2 e x := by
  simp [recalculate_entity_status, h1, h2]

theorem cascadeApply_ok (wOk : EntityRef → Bool) (v : Severity) :
    ∀ (es : List EntityRef) (st st1 : SystemState),
      cascadeApply wOk v st es = .ok st1 →
      st1.incidents = st.incidents ∧ st1.links = st.links ∧
      st1.timeline = st.timeline ∧ st1.clock = st.clock ∧
      st1.nextId = st.nextId ∧
      ∀ x, st1.entityStatus x =
        if x ∈ es then worse_of (st.entityStatus x) (severity_to_status v)
        else st.entityStatus x := by
  intro es
  induction es with
  | nil =>
    intro st st1 h
    simp only [cascadeApply] at h
    cases h
    exact ⟨rfl, rfl, rfl, rfl, rfl, fun x => by simp⟩
  | cons e es ih =>
    intro st st1 h
    simp only [cascadeApply, apply_impact, setStatusW] at h
    by_cases hw : wOk e
    · rw [if_pos hw] at h
      obtain ⟨h1, h2, h3, h4, h5, h6⟩ := ih _ _ h
      refine ⟨h1, h2, h3, h4, h5, ?_⟩
      intro x
      rw [h6 x]
      by_cases hx : x = e
      · subst hx
        by_cases hxs : x ∈ es
        · simp only [hxs, if_true, List.mem_cons, true_or, setStatusPure_at]
          exact worse_of_right_absorb _ _
        · simp [hxs, setStatusPure_at]
      · rw [setStatusPure_ne st _ hx]
        simp [List.mem_cons, hx]
    · rw [if_neg hw] at h
      simp at h

theorem cascadeRecalc_ok (wOk : EntityRef → Bool) (excl : Option Nat) :
    ∀ (es : List EntityRef) (st st1 : SystemState),
      cascadeRecalc wOk excl st es = .ok st1 →
      st1.incidents = st.incidents ∧ st1.links = st.links ∧
      st1.timeline = st.timeline ∧ st1.clock = st.clock ∧
      st1.nextId = st.nextId ∧
      ∀ x, st1.entityStatus x =
        if x ∈ es then recalculate_entity_status st x excl
        else st.entityStatus x := by
  intro es
  induction es with
  | nil =>
    intro st st1 h
    simp only [cascadeRecalc] at h
    cases h
    exact ⟨rfl, rfl, rfl, rfl, rfl, fun x => by simp⟩
  | cons e es ih =>
    intro st st1 h
    simp only [cascadeRecalc, setStatusW] at h
    by_cases hw : wOk e
    · rw [if_pos hw] at h
      obtain ⟨h1, h2, h3, h4, h5, h6⟩ := ih _ _ h
      have hre : ∀ y,
          recalculate_entity_status
            (setStatusPure st e (recalculate_entity_status st e excl)) y excl =
          recalculate_entity_status st y excl := by
        intro y; exact recalc_congr y excl rfl rfl
      refine ⟨h1, h2, h3, h4, h5, ?_⟩
      intro x
      rw [h6 x, hre x]
      by_cases hx : x = e
      · subst hx
        by_cases hxs : x ∈ es
        · simp [hxs]
        · simp [hxs, setStatusPure_at]
      · rw [setStatusPure_ne st _ hx]
        simp [List.mem_cons, hx]
    · rw [if_neg hw] at h
      simp at h

theorem cascadeApply_error (wOk : EntityRef → Bool) (v : Severity) :
    ∀ (es : List EntityRef) (st : SystemState) (err : IncidentError),
      cascadeApply wOk v st es = .error err →
      ∃ e, err = .cascadeWriteFailure e ∧ wOk e = false ∧ e ∈ es := by
  intro es
  induction es with
  | nil => intro st err h; simp [cascadeApply] at h
  | cons e es ih =>
    intro st err h
    simp only [cascadeApply, apply_impact, setStatusW] at h
    by_cases hw : wOk e
    · rw [if_pos hw] at h
      obtain ⟨x, hx1, hx2, hx3⟩ := ih _ _ h
      exact ⟨x, hx1, hx2, List.mem_cons_of_mem _ hx3⟩
    · rw [if_neg hw] at h
      refine ⟨e, ?_, by simpa using hw, List.mem_cons_self _ _⟩
      cases h
      rfl

theorem cascadeRecalc_error (wOk : EntityRef → Bool) (excl : Option Nat) :
    ∀ (es : List EntityRef) (st : SystemState) (err : IncidentError),
      cascadeRecalc wOk excl st es = .error err →
      ∃ e, err = .cascadeWriteFailure e ∧ wOk e = false ∧ e ∈ es := by
  intro es
  induction es with
  | nil => intro st err h; simp [cascadeRecalc] at h
  | cons e es ih =>
    intro st err h
    simp only [cascadeRecalc, setStatusW] at h
    by_cases hw : wOk e
    · rw [if_pos hw] at h
      obtain ⟨x, hx1, hx2, hx3⟩ := ih _ _ h
      exact ⟨x, hx1, hx2, List.mem_cons_of_mem _ hx3⟩
    · rw [if_neg hw] at h
      refine ⟨e, ?_, by simpa using hw, List.mem_cons_self _ _⟩
      cases h
      rfl

theorem cascadeApply_allOk_isOk (v : Severity) :
    ∀ (es : List EntityRef) (st : SystemState),
      ∃ st1, cascadeApply allOk v st es = .ok st1 := by
  intro es
  induction es with
  | nil => intro st; exact ⟨st, rfl⟩
  | cons e es ih =>
    intro st
    obtain ⟨st1, h⟩ := ih (setStatusPure st e
      (worse_of (st.entityStatus e) (severity_to_status v)))
    exact ⟨st1, h⟩

theorem cascadeRecalc_allOk_isOk (excl : Option Nat) :
    ∀ (es : List EntityRef) (st : SystemState),
      ∃ st1, cascadeRecalc allOk excl st es = .ok st1 := by
  intro es
  induction es with
  | nil => intro st; exact ⟨st, rfl⟩
  | cons e es ih =>
    intro st
    obtain ⟨st1, h⟩ := ih (setStatusPure st e (recalculate_entity_status st e excl))
    exact ⟨st1, h⟩

theorem cascadeApply_fails (wOk : EntityRef → Bool) (v : Severity) :
    ∀ (es : List EntityRef) (st : SystemState) (e : EntityRef),
      e ∈ es → wOk e = false →
      ∃ err, cascadeApply wOk v st es = .error err := by
  intro es
  induction es with
  | nil => intro st e h; exact absurd h (List.not_mem_nil e)
  | cons a es ih =>
    intro st e hmem hw
    simp only [cascadeApply, apply_impact, setStatusW]
    by_cases hwa : wOk a
    · rw [if_pos hwa]
      rcases List.mem_cons.mp hmem with h | h
      · subst h; rw [hwa] at hw; cases hw
      · exact ih _ e h hw
    · rw [if_neg hwa]
      exact ⟨_, rfl⟩

theorem cascadeRecalc_fails (wOk : EntityRef → Bool) (excl : Option Nat) :
    ∀ (es : List EntityRef) (st : SystemState) (e : EntityRef),
      e ∈ es → wOk e = false →
      ∃ err, cascadeRecalc wOk excl st es = .error err := by
  intro es
  induction es with
  | nil => intro st e h; exact absurd h (List.not_mem_nil e)
  | cons a es ih =>
    intro st e hmem hw
    simp only [cascadeRecalc, setStatusW]
    by_cases hwa : wOk a
    · rw [if_pos hwa]
      rcases List.mem_cons.mp hmem with h | h
      · subst h; rw [hwa] at hw; cases hw
      · exact ih _ e h hw
    · rw [if_neg hwa]
      exact ⟨_, rfl⟩

theorem recalcFold_eq_worst (A : List Incident) :
    (if A.isEmpty then .operational
      else A.foldl (fun worst i =>
        let s := severity_to_status i.severity
        if statusRanking s < statusRanking worst then s else worst)
        OperationalStatus.operational) =
    worst_of (A.map (fun i => severity_to_status i.severity)) := by
  cases A with
  | nil => rfl
  | cons a t =>
    rw [if_neg (by simp)]
    rw [worst_of, List.foldl_map]
    rfl

theorem recalc_eq_worst (st : SystemState) (e : EntityRef) (excl : Option Nat) :
    recalculate_entity_status st e excl =
      worst_of ((st.incidents.filter (fun i =>
        linkedB st.links i.id e && !(exclB excl i.id) &&
          decide (i.status ≠ .resolved) && !i.deleted)).map
        (fun i => severity_to_status i.severity)) := by
  simp only [recalculate_entity_status]
  exact recalcFold_eq_worst _

/-- The selection the spec attributes to `recalculate`: an incident other
than the excluded one, non-resolved, non-soft-deleted, and linked to the
entity. -/
def c3Pred (st : SystemState) (e : EntityRef) (excl : Nat) (i : Incident) : Bool :=
  decide (i.id ≠ excl) && decide (i.status ≠ .resolved) && !i.deleted &&
    linkedB st.links i.id e

/-- The value the spec says `recalculate(entity_ref, excluding_incident_id)`
writes: `worst_of` of `severity_to_status` over every qualifying incident,
`operational` when there is none. -/
def recalcSpecFormula (st : SystemState) (e : EntityRef) (excl : Nat) :
    OperationalStatus :=
  worst_of ((st.incidents.filter (c3Pred st e excl)).map
    (fun i => severity_to_status i.severity))

def entS1 : EntityRef := { entityType := .service, entityId := 1 }

def entS2 : EntityRef := { entityType := .service, entityId := 2 }

def entR1 : EntityRef := { entityType := .resource, entityId := 1 }

def entC1 : EntityRef := { entityType := .component, entityId := 1 }

/-- Claim C3: `recalculate` computes exactly the worst mapped status over
every other open incident linked to the entity, `operational` when no
such incident exists; resolving the critical one of a major+critical pair
on one resource leaves the resource `degraded`, and resolving the only
open incident on a component returns it to `operational`. -/
theorem claim_C3 :
    (∀ (st : SystemState) (e : EntityRef) (excl : Nat),
      recalculate_entity_status st e (some excl) = recalcSpecFormula st e excl)
    ∧ (∀ (st : SystemState) (e : EntityRef) (excl : Nat),
      st.incidents.filter (c3Pred st e excl) = [] →
        recalculate_entity_status st e (some excl) = .operational)
    ∧ (run allOk initState [.create .major [entR1], .create .critical [entR1],
        .advance 1 .resolved "resolved critical"]).entityStatus entR1 = .degraded
    ∧ (run allOk initState [.create .critical [entC1],
        .advance 0 .resolved "resolved only"]).entityStatus entC1 = .operational := by
  have hmain : ∀ (st : SystemState) (e : EntityRef) (excl : Nat),
      recalculate_entity_status st e (some excl) = recalcSpecFormula st e excl := by
    intro st e excl
    rw [recalc_eq_worst, recalcSpecFormula]
    congr 1
    apply congrArg
    apply List.filter_congr
    intro i _
    simp only [c3Pred, exclB]
    cases h1 : linkedB st.links i.id e <;>
      cases h2 : decide (i.id = excl) <;>
      cases h3 : i.deleted <;>
      simp [h1, h2, h3, decide_not]
  refine ⟨hmain, ?_, by decide, by decide⟩
  intro st e excl h
  rw [hmain, recalcSpecFormula, h]
  rfl

/-- Claim C3 witness: in the empty state no incident qualifies and the
recalculated status is `operational`. -/
theorem claim_C3_witness :
    recalculate_entity_status initState entS1 (some 0) = .operational :=
  claim_C3.2.1 initState entS1 0 rfl

theorem transition_error_shape (wOk : EntityRef → Bool) (st : SystemState)
    (iid : Nat) (target : IncidentStatus) (note : String) (inc : Incident)
    (h : findIncident st iid = some inc) (hmem : target ∈ allowedNext inc.status)
    (err : IncidentError)
    (he : transition wOk st iid target note = .error err) :
    ∃ e, err = .cascadeWriteFailure e := by
  simp only [transition, h, if_pos hmem] at he
  by_cases ht : target = .resolved
  · rw [if_pos ht] at he
    obtain ⟨e, he1, _, _⟩ := cascadeRecalc_error wOk _ _ _ _ he
    exact ⟨e, he1⟩
  · rw [if_neg ht] at he
    by_cases hs : inc.status = .resolved
    · rw [if_pos hs] at he
      obtain ⟨e, he1, _, _⟩ := cascadeApply_error wOk _ _ _ _ he
      exact ⟨e, he1⟩
    · rw [if_neg hs] at he
      cases he

/-- Claim C2: `transition` fails with `InvalidTransition` (and commits
nothing, leaving the status unchanged) exactly when the target is outside
the allowed set of the transition table; the table is exactly
investigating to identified/monitoring/resolved, identified to
monitoring/resolved, monitoring to resolved, resolved to investigating;
and identified to resolved succeeds directly. -/
theorem claim_C2 (wOk : EntityRef → Bool) (st : SystemState) (iid : Nat)
    (target : IncidentStatus) (note : String) (inc : Incident)
    (h : findIncident st iid = some inc) :
    ((transition wOk st iid target note =
        .error (.invalidTransition inc.status target)
      ∧ stepOp wOk st (.advance iid target note) = st)
      ↔ target ∉ allowedNext inc.status)
    ∧ (allowedNext .investigating = [.identified, .monitoring, .resolved]
      ∧ allowedNext .identified = [.monitoring, .resolved]
      ∧ allowedNext .monitoring = [.resolved]
      ∧ allowedNext .resolved = [.investigating])
    ∧ (inc.status = .identified →
      ∃ st1, transition allOk st iid .resolved note = .ok st1) := by
  refine ⟨?_, ⟨rfl, rfl, rfl, rfl⟩, ?_⟩
  · constructor
    · rintro ⟨he, _⟩ hmem
      obtain ⟨e, he1⟩ := transition_error_shape wOk st iid target note inc h hmem _ he
      cases he1
    · intro hmem
      have he : transition wOk st iid target note =
          .error (.invalidTransition inc.status target) := by
        simp only [transition, h, if_neg hmem]
      refine ⟨he, ?_⟩
      simp only [stepOp, applyOp, he]
  · intro hs
    have hmem : IncidentStatus.resolved ∈ allowedNext inc.status := by
      rw [hs]; decide
    simp only [transition, h, if_pos hmem, if_pos rfl]
    exact cascadeRecalc_allOk_isOk _ _ _

def stC2 : SystemState :=
  run allOk initState [.create .major [entS1], .advance 0 .identified ""]

def incC2 : Incident :=
  { id := 0, severity := .major, status := .identified, resolvedAt := none,
    deleted := false }

/-- Claim C2 witness: on a concrete incident in `identified`, the illegal
target `investigating` fails with `InvalidTransition` and commits
nothing, while the direct `identified` to `resolved` transition
succeeds. -/
theorem claim_C2_witness :
    (transition allOk stC2 0 .investigating "x" =
        .error (.invalidTransition .identified .investigating)
      ∧ stepOp allOk stC2 (.advance 0 .investigating "x") = stC2)
    ∧ ∃ st1, transition allOk stC2 0 .resolved "x" = .ok st1 :=
  ⟨(claim_C2 allOk stC2 0 .investigating "x" incC2 (by decide)).1.mpr (by decide),
    (claim_C2 allOk stC2 0 .resolved "x" incC2 (by decide)).2.2 rfl⟩

theorem findIncident_mem {st : SystemState} {iid : Nat} {inc : Incident}
    (h : findIncident st iid = some inc) :
    inc ∈ st.incidents ∧ inc.id = iid ∧ inc.deleted = false := by
  have h1 := List.mem_of_find?_eq_some h
  have h2 := List.find?_some h
  simp only [Bool.and_eq_true, decide_eq_true_eq, Bool.not_eq_true'] at h2
  exact ⟨h1, h2.1, h2.2⟩

/-- The `resolved_at` value the state machine writes for a transition. -/
def newRA (st : SystemState) (inc : Incident) (target : IncidentStatus) :
    Option Nat :=
  if target = .resolved then some st.clock
  else if inc.status = .resolved then none else inc.resolvedAt

def mapStatus (iid : Nat) (target : IncidentStatus) (ra : Option Nat)
    (l : List Incident) : List Incident :=
  l.map (fun i => if i.id = iid then { i with status := target, resolvedAt := ra }
    else i)

def mapSeverity (iid : Nat) (v : Severity) (l : List Incident) : List Incident :=
  l.map (fun i => if i.id = iid then { i with severity := v } else i)

def removeLinks (iid : Nat) (e : EntityRef) (links : List Link) : List Link :=
  links.filter (fun l => !(decide (l.incidentId = iid ∧ l.entity = e)))

def mkEntry (iid ts : Nat) (t : EntryType) (c : String) : TimelineEntry :=
  { incidentId := iid, timestamp := ts, entryType := t, content := c }

/-- The recalculation value used when incident `iid` resolves: computed on
the state where `iid` is already marked resolved. -/
def recalcAfterResolve (st : SystemState) (iid : Nat) (x : EntityRef) :
    OperationalStatus :=
  recalculate_entity_status
    { st with incidents := mapStatus iid .resolved (some st.clock) st.incidents }
    x (some iid)

/-- The recalculation value used when entity `e` is detached from incident
`iid`: computed on the state with the link removed, excluding nothing. -/
def recalcAfterRemove (st : SystemState) (iid : Nat) (e : EntityRef) :
    OperationalStatus :=
  recalculate_entity_status { st with links := removeLinks iid e st.links } e none

def tick (st : SystemState) : SystemState := { st with clock := st.clock + 1 }

theorem stepOp_ok {wOk : EntityRef → Bool} {st : SystemState} {op : Op}
    {st1 : SystemState} (h : applyOp wOk st op = .ok st1) :
    stepOp wOk st op = tick st1 := by
  simp [stepOp, h, tick]

theorem stepOp_error {wOk : EntityRef → Bool} {st : SystemState} {op : Op}
    {err : IncidentError} (h : applyOp wOk st op = .error err) :
    stepOp wOk st op = st := by
  simp [stepOp, h]

theorem transition_none {wOk : EntityRef → Bool} {st : SystemState} {iid : Nat}
    (target : IncidentStatus) (note : String) (h : findIncident st iid = none) :
    transition wOk st iid target note = .error .entityNotFound := by
  simp [transition, h]

theorem transition_ok {wOk : EntityRef → Bool} {st : SystemState} {iid : Nat}
    {target : IncidentStatus} {note : String} {inc : Incident} {st1 : SystemState}
    (h : findIncident st iid = some inc)
    (hok : transition wOk st iid target note = .ok st1) :
    target ∈ allowedNext inc.status
    ∧ st1.incidents = mapStatus iid target (newRA st inc target) st.incidents
    ∧ st1.links = st.links
    ∧ st1.timeline = st.timeline ++
        [mkEntry iid st.clock .status_change (transitionContent inc.status target note)]
    ∧ st1.clock = st.clock
    ∧ st1.nextId = st.nextId
    ∧ ((target = .resolved
        ∧ ∀ x, st1.entityStatus x =
            if x ∈ entitiesOf st.links iid then recalcAfterResolve st iid x
            else st.entityStatus x)
      ∨ (target ≠ .resolved ∧ inc.status = .resolved
        ∧ ∀ x, st1.entityStatus x =
            if x ∈ entitiesOf st.links iid
            then worse_of (st.entityStatus x) (severity_to_status inc.severity)
            else st.entityStatus x)
      ∨ (target ≠ .resolved ∧ inc.status ≠ .resolved
        ∧ st1.entityStatus = st.entityStatus)) := by
  simp only [transition, h] at hok
  by_cases hmem : target ∈ allowedNext inc.status
  · rw [if_pos hmem] at hok
    by_cases ht : target = .resolved
    · subst ht
      rw [if_pos rfl] at hok
      obtain ⟨h1, h2, h3, h4, h5, h6⟩ := cascadeRecalc_ok wOk (some iid) _ _ _ hok
      refine ⟨hmem, h1, h2, h3, h4, h5, Or.inl ⟨rfl, ?_⟩⟩
      intro x
      rw [h6 x]
      rfl
    · rw [if_neg ht] at hok
      by_cases hs : inc.status = .resolved
      · rw [if_pos hs] at hok
        obtain ⟨h1, h2, h3, h4, h5, h6⟩ := cascadeApply_ok wOk inc.severity _ _ _ hok
        refine ⟨hmem, ?_, h2, h3, h4, h5, Or.inr (Or.inl ⟨ht, hs, ?_⟩)⟩
        · rw [h1]
          simp only [mapStatus, newRA, if_neg ht, if_pos hs]
          rfl
        · intro x
          rw [h6 x]
          rfl
      · rw [if_neg hs] at hok
        injection hok with h'
        subst h'
        refine ⟨hmem, ?_, rfl, rfl, rfl, rfl, Or.inr (Or.inr ⟨ht, hs, rfl⟩)⟩
        simp only [mapStatus, newRA, if_neg ht, if_neg hs]
        rfl
  · rw [if_neg hmem] at hok
    simp at hok

def newIncident (st : SystemState) (v : Severity) : Incident :=
  { id := st.nextId, severity := v, status := .investigating, resolvedAt := none,
    deleted := false }

theorem createIncident_ok {wOk : EntityRef → Bool} {st : SystemState}
    {v : Severity} {es : List EntityRef} {st1 : SystemState}
    (hok : createIncident wOk st v es = .ok st1) :
    st1.incidents = st.incidents ++ [newIncident st v]
    ∧ st1.links = addLinks st.nextId st.links es
    ∧ st1.timeline = st.timeline ++
        [mkEntry st.nextId st.clock .status_change
          "Incident created with status: investigating"]
    ∧ st1.clock = st.clock
    ∧ st1.nextId = st.nextId + 1
    ∧ ∀ x, st1.entityStatus x =
        if x ∈ es then worse_of (st.entityStatus x) (severity_to_status v)
        else st.entityStatus x := by
  simp only [createIncident] at hok
  obtain ⟨h1, h2, h3, h4, h5, h6⟩ := cascadeApply_ok wOk v _ _ _ hok
  refine ⟨h1, h2, h3, h4, h5, ?_⟩
  intro x
  rw [h6 x]
  rfl

theorem addAffectedEntity_none {wOk : EntityRef → Bool} {st : SystemState}
    {iid : Nat} (e : EntityRef) (h : findIncident st iid = none) :
    addAffectedEntity wOk st iid e = .error .entityNotFound := by
  simp [addAffectedEntity, h]

theorem addAffectedEntity_ok {wOk : EntityRef → Bool} {st : SystemState}
    {iid : Nat} {e : EntityRef} {inc : Incident} {st1 : SystemState}
    (h : findIncident st iid = some inc)
    (hok : addAffectedEntity wOk st iid e = .ok st1) :
    (linkedB st.links iid e = true ∧ st1 = st)
    ∨ (linkedB st.links iid e = false
      ∧ st1.incidents = st.incidents
      ∧ st1.links = st.links ++ [{ incidentId := iid, entity := e }]
      ∧ st1.timeline = st.timeline ++
          [mkEntry iid st.clock .entity_added "Affected entity added"]
      ∧ st1.clock = st.clock
      ∧ st1.nextId = st.nextId
      ∧ ((inc.status = .resolved ∧ st1.entityStatus = st.entityStatus)
        ∨ (inc.status ≠ .resolved
          ∧ ∀ x, st1.entityStatus x =
              if x = e
              then worse_of (st.entityStatus e) (severity_to_status inc.severity)
              else st.entityStatus x))) := by
  simp only [addAffectedEntity, h] at hok
  by_cases hl : linkedB st.links iid e
  · rw [if_pos hl] at hok
    injection hok with h'
    exact Or.inl ⟨hl, h'.symm⟩
  · rw [if_neg hl] at hok
    by_cases hs : inc.status = .resolved
    · rw [if_pos hs] at hok
      injection hok with h'
      subst h'
      exact Or.inr ⟨by simpa using hl, rfl, rfl, rfl, rfl, rfl, Or.inl ⟨hs, rfl⟩⟩
    · rw [if_neg hs] at hok
      simp only [apply_impact, setStatusW] at hok
      by_cases hw : wOk e
      · rw [if_pos hw] at hok
        injection hok with h'
        subst h'
        refine Or.inr ⟨by simpa using hl, rfl, rfl, rfl, rfl, rfl,
          Or.inr ⟨hs, ?_⟩⟩
        intro x
        by_cases hx : x = e
        · subst hx
          rw [if_pos rfl, setStatusPure_at]
          rfl
        · rw [setStatusPure_ne _ _ hx, if_neg hx]
          rfl
      · rw [if_neg hw] at hok
        simp at hok

theorem removeAffectedEntity_none {wOk : EntityRef → Bool} {st : SystemState}
    {iid : Nat} (e : EntityRef) (h : findIncident st iid = none) :
    removeAffectedEntity wOk st iid e = .error .entityNotFound := by
  simp [removeAffectedEntity, h]

theorem removeAffectedEntity_ok {wOk : EntityRef → Bool} {st : SystemState}
    {iid : Nat} {e : EntityRef} {inc : Incident} {st1 : SystemState}
    (h : findIncident st iid = some inc)
    (hok : removeAffectedEntity wOk st iid e = .ok st1) :
    st1.incidents = st.incidents
    ∧ st1.links = removeLinks iid e st.links
    ∧ st1.timeline = st.timeline ++
        [mkEntry iid st.clock .entity_removed "Affected entity removed"]
    ∧ st1.clock = st.clock
    ∧ st1.nextId = st.nextId
    ∧ ∀ x, st1.entityStatus x =
        if x = e then recalcAfterRemove st iid e else st.entityStatus x := by
  simp only [removeAffectedEntity, h, setStatusW] at hok
  by_cases hw : wOk e
  · rw [if_pos hw] at hok
    injection hok with h'
    subst h'
    refine ⟨rfl, rfl, rfl, rfl, rfl, ?_⟩
    intro x
    by_cases hx : x = e
    · subst hx
      rw [if_pos rfl, setStatusPure_at]
      rfl
    · rw [setStatusPure_ne _ _ hx, if_neg hx]
      rfl
  · rw [if_neg hw] at hok
    simp at hok

theorem updateSeverityOp_none {wOk : EntityRef → Bool} {st : SystemState}
    {iid : Nat} (v : Severity) (h : findIncident st iid = none) :
    updateSeverityOp wOk st iid v = .error .entityNotFound := by
  simp [updateSeverityOp, h]

theorem updateSeverityOp_ok {wOk : EntityRef → Bool} {st : SystemState}
    {iid : Nat} {v : Severity} {inc : Incident} {st1 : SystemState}
    (h : findIncident st iid = some inc)
    (hok : updateSeverityOp wOk st iid v = .ok st1) :
    st1.incidents = mapSeverity iid v st.incidents
    ∧ st1.links = st.links
    ∧ st1.timeline = st.timeline ++
        [mkEntry iid st.clock .status_change "Severity changed"]
    ∧ st1.clock = st.clock
    ∧ st1.nextId = st.nextId
    ∧ ((inc.status = .resolved ∧ st1.entityStatus = st.entityStatus)
      ∨ (inc.status ≠ .resolved
        ∧ ∀ x, st1.entityStatus x =
            if x ∈ entitiesOf st.links iid
            then worse_of (st.entityStatus x) (severity_to_status v)
            else st.entityStatus x)) := by
  simp only [updateSeverityOp, h] at hok
  by_cases hs : inc.status = .resolved
  · rw [if_pos hs] at hok
    injection hok with h'
    subst h'
    exact ⟨rfl, rfl, rfl, rfl, rfl, Or.inl ⟨hs, rfl⟩⟩
  · rw [if_neg hs] at hok
    obtain ⟨h1, h2, h3, h4, h5, h6⟩ := cascadeApply_ok wOk v _ _ _ hok
    refine ⟨h1, h2, h3, h4, h5, Or.inr ⟨hs, ?_⟩⟩
    intro x
    rw [h6 x]
    rfl

theorem addNoteOp_none {st : SystemState} {iid : Nat} (c : String)
    (h : findIncident st iid = none) :
    addNoteOp st iid c = .error .entityNotFound := by
  simp [addNoteOp, h]

theorem addNoteOp_ok {st : SystemState} {iid : Nat} {c : String}
    {st1 : SystemState} (hok : addNoteOp st iid c = .ok st1) :
    st1.incidents = st.incidents
    ∧ st1.links = st.links
    ∧ st1.timeline = st.timeline ++ [mkEntry iid st.clock .note c]
    ∧ st1.clock = st.clock
    ∧ st1.nextId = st.nextId
    ∧ st1.entityStatus = st.entityStatus := by
  unfold addNoteOp at hok
  split at hok
  · simp at hok
  · injection hok with h'
    subst h'
    exact ⟨rfl, rfl, rfl, rfl, rfl, rfl⟩

theorem linkedB_append (l1 l2 : List Link) (iid : Nat) (e : EntityRef) :
    linkedB (l1 ++ l2) iid e = (linkedB l1 iid e || linkedB l2 iid e) := by
  simp [linkedB]

theorem linkedB_single (j : Nat) (a : EntityRef) (iid : Nat) (e : EntityRef) :
    linkedB [{ incidentId := j, entity := a }] iid e =
      decide (j = iid ∧ a = e) := by
  simp [linkedB]

theorem linkedB_addLink_ne {iid j : Nat} (hne : j ≠ iid) (links : List Link)
    (a e : EntityRef) : linkedB (addLink links iid a) j e = linkedB links j e := by
  unfold addLink
  by_cases hl : linkedB links iid a
  · rw [if_pos hl]
  · rw [if_neg hl, linkedB_append, linkedB_single]
    have : decide (iid = j ∧ a = e) = false := by
      simp
      intro hij
      exact absurd hij.symm hne
    rw [this, Bool.or_false]

theorem linkedB_addLinks_ne {iid j : Nat} (hne : j ≠ iid) :
    ∀ (es : List EntityRef) (links : List Link) (e : EntityRef),
      linkedB (addLinks iid links es) j e = linkedB links j e := by
  intro es
  induction es with
  | nil => intro links e; rfl
  | cons a es ih =>
    intro links e
    show linkedB (addLinks iid (addLink links iid a) es) j e = _
    rw [ih (addLink links iid a) e, linkedB_addLink_ne hne]

theorem linkedB_addLink_self (links : List Link) (iid : Nat) (a e : EntityRef) :
    linkedB (addLink links iid a) iid e =
      (linkedB links iid e || decide (a = e)) := by
  unfold addLink
  by_cases hl : linkedB links iid a
  · rw [if_pos hl]
    by_cases hae : a = e
    · subst hae
      rw [hl]
      simp
    · simp [hae]
  · rw [if_neg hl, linkedB_append, linkedB_single]
    simp

theorem linkedB_addLinks_self (iid : Nat) :
    ∀ (es : List EntityRef) (links : List Link) (e : EntityRef),
      linkedB (addLinks iid links es) iid e =
        (linkedB links iid e || decide (e ∈ es)) := by
  intro es
  induction es with
  | nil => intro links e; simp; rfl
  | cons a es ih =>
    intro links e
    show linkedB (addLinks iid (addLink links iid a) es) iid e = _
    rw [ih, linkedB_addLink_self]
    by_cases hae : e = a
    · subst hae; simp
    · have : (a = e) = False := by
        simp
        intro h
        exact hae h.symm
      simp [List.mem_cons, hae, this]

theorem mem_addLinks {iid : Nat} :
    ∀ (es : List EntityRef) (links : List Link) (l : Link),
      l ∈ addLinks iid links es → l ∈ links ∨ l.incidentId = iid := by
  intro es
  induction es with
  | nil => intro links l h; exact Or.inl h
  | cons a es ih =>
    intro links l h
    rcases ih (addLink links iid a) l h with h1 | h1
    · unfold addLink at h1
      by_cases hl : linkedB links iid a
      · rw [if_pos hl] at h1; exact Or.inl h1
      · rw [if_neg hl] at h1
        rcases List.mem_append.mp h1 with h2 | h2
        · exact Or.inl h2
        · right
          have : l = { incidentId := iid, entity := a } := by simpa using h2
          rw [this]
    · exact Or.inr h1

theorem mem_entitiesOf {links : List Link} {iid : Nat} {e : EntityRef} :
    e ∈ entitiesOf links iid ↔ linkedB links iid e = true := by
  simp only [entitiesOf, linkedB, List.mem_map, List.mem_filter,
    List.any_eq_true, decide_eq_true_eq]
  constructor
  · rintro ⟨l, ⟨hmem, hid⟩, hent⟩
    exact ⟨l, hmem, hid, hent⟩
  · rintro ⟨l, hmem, hid, hent⟩
    exact ⟨l, ⟨hmem, hid⟩, hent⟩

theorem map_id_pres {f : Incident → Incident} (hf : ∀ i, (f i).id = i.id) :
    ∀ l : List Incident, (l.map f).map Incident.id = l.map Incident.id := by
  intro l
  induction l with
  | nil => rfl
  | cons a t ih => simp only [List.map_cons, hf, ih]

theorem mapStatus_id (iid : Nat) (target : IncidentStatus) (ra : Option Nat)
    (i : Incident) :
    ((fun i => if i.id = iid
      then { i with status := target, resolvedAt := ra } else i) i).id = i.id := by
  by_cases hc : i.id = iid <;> simp [hc]

theorem mapSeverity_id (iid : Nat) (v : Severity) (i : Incident) :
    ((fun i => if i.id = iid then { i with severity := v } else i) i).id = i.id := by
  by_cases hc : i.id = iid <;> simp [hc]

/-- Structural well-formedness of a committed state: incident ids are
fresh-bounded and unique, links reference existing id space, nothing is
soft-deleted (no delete operation is modelled), `resolved_at` agrees with
the status, and timeline timestamps are clock-bounded and sorted. -/
structure WF (st : SystemState) : Prop where
  ids_lt : ∀ i ∈ st.incidents, i.id < st.nextId
  ids_nodup : (st.incidents.map Incident.id).Nodup
  links_lt : ∀ l ∈ st.links, l.incidentId < st.nextId
  not_del : ∀ i ∈ st.incidents, i.deleted = false
  res_iff : ∀ i ∈ st.incidents, i.resolvedAt ≠ none ↔ i.status = .resolved
  ts_le : ∀ en ∈ st.timeline, en.timestamp ≤ st.clock
  ts_sorted : st.timeline.Pairwise (fun a b => a.timestamp ≤ b.timestamp)

theorem WF_initState : WF initState := by
  constructor <;> simp [initState]

theorem WF_tick {st : SystemState} (h : WF st) : WF (tick st) := by
  obtain ⟨h1, h2, h3, h4, h5, h6, h7⟩ := h
  exact ⟨h1, h2, h3, h4, h5,
    fun en hen => Nat.le_succ_of_le (h6 en hen), h7⟩

theorem timeline_append_ts {st : SystemState} (h : WF st) (en : TimelineEntry)
    (hts : en.timestamp = st.clock) :
    (∀ x ∈ st.timeline ++ [en], x.timestamp ≤ st.clock)
    ∧ (st.timeline ++ [en]).Pairwise (fun a b => a.timestamp ≤ b.timestamp) := by
  constructor
  · intro x hx
    rcases List.mem_append.mp hx with h1 | h1
    · exact h.ts_le x h1
    · have : x = en := by simpa using h1
      rw [this, hts]
  · rw [List.pairwise_append]
    refine ⟨h.ts_sorted, List.pairwise_singleton _ _, ?_⟩
    intro a ha b hb
    have : b = en := by simpa using hb
    rw [this, hts]
    exact h.ts_le a ha

theorem WF_create {wOk : EntityRef → Bool} {st : SystemState} {v : Severity}
    {es : List EntityRef} {st1 : SystemState} (h : WF st)
    (hok : createIncident wOk st v es = .ok st1) : WF st1 := by
  obtain ⟨h1, h2, h3, h4, h5, _⟩ := createIncident_ok hok
  have hts := timeline_append_ts h
    (mkEntry st.nextId st.clock .status_change
      "Incident created with status: investigating") rfl
  constructor
  · intro i hi
    rw [h1] at hi
    rw [h5]
    rcases List.mem_append.mp hi with hm | hm
    · exact Nat.lt_succ_of_lt (h.ids_lt i hm)
    · have : i = newIncident st v := by simpa using hm
      rw [this]
      exact Nat.lt_succ_self _
  · rw [h1, List.map_append]
    rw [List.nodup_append]
    refine ⟨h.ids_nodup, by simp, ?_⟩
    intro a ha hb
    have hb2 : a = st.nextId := by simpa [newIncident] using hb
    rcases List.mem_map.mp ha with ⟨i, hi, hid⟩
    rw [hb2] at hid
    exact absurd hid (Nat.ne_of_lt (h.ids_lt i hi))
  · intro l hl
    rw [h2] at hl
    rw [h5]
    rcases mem_addLinks es st.links l hl with hm | hm
    · exact Nat.lt_succ_of_lt (h.links_lt l hm)
    · rw [hm]
      exact Nat.lt_succ_self _
  · intro i hi
    rw [h1] at hi
    rcases List.mem_append.mp hi with hm | hm
    · exact h.not_del i hm
    · have : i = newIncident st v := by simpa using hm
      rw [this]
      rfl
  · intro i hi
    rw [h1] at hi
    rcases List.mem_append.mp hi with hm | hm
    · exact h.res_iff i hm
    · have : i = newIncident st v := by simpa using hm
      rw [this]
      simp [newIncident]
  · intro en hen
    rw [h3] at hen
    rw [h4]
    exact hts.1 en hen
  · rw [h3]
    exact hts.2

theorem WF_transition {wOk : EntityRef → Bool} {st : SystemState} {iid : Nat}
    {target : IncidentStatus} {note : String} {inc : Incident} {st1 : SystemState}
    (h : WF st) (hfind : findIncident st iid = some inc)
    (hok : transition wOk st iid target note = .ok st1) : WF st1 := by
  obtain ⟨hmem, h1, h2, h3, h4, h5, _⟩ := transition_ok hfind hok
  have hts := timeline_append_ts h
    (mkEntry iid st.clock .status_change (transitionContent inc.status target note))
    rfl
  have hidmap : ∀ i : Incident,
      ((fun i => if i.id = iid
        then { i with status := target, resolvedAt := newRA st inc target }
        else i) i).id = i.id :=
    mapStatus_id iid target (newRA st inc target)
  constructor
  · intro i hi
    rw [h1] at hi
    rw [h5]
    rcases List.mem_map.mp hi with ⟨j, hj, hji⟩
    rw [← hji, hidmap j]
    exact h.ids_lt j hj
  · rw [h1, mapStatus, map_id_pres hidmap]
    exact h.ids_nodup
  · intro l hl
    rw [h2] at hl
    rw [h5]
    exact h.links_lt l hl
  · intro i hi
    rw [h1] at hi
    rcases List.mem_map.mp hi with ⟨j, hj, hji⟩
    rw [← hji]
    by_cases hc : j.id = iid
    · simp only [if_pos hc]
      exact h.not_del j hj
    · simp only [if_neg hc]
      exact h.not_del j hj
  · intro i hi
    rw [h1] at hi
    rcases List.mem_map.mp hi with ⟨j, hj, hji⟩
    rw [← hji]
    by_cases hc : j.id = iid
    · simp only [if_pos hc]
      show newRA st inc target ≠ none ↔ target = .resolved
      unfold newRA
      by_cases ht : target = .resolved
      · simp [ht]
      · rw [if_neg ht]
        by_cases hs : inc.status = .resolved
        · simp [hs, ht]
        · rw [if_neg hs]
          have hincmem := (findIncident_mem hfind).1
          have : inc.resolvedAt = none := by
            by_contra hne
            exact hs ((h.res_iff inc hincmem).mp hne)
          simp [this, ht]
    · simp only [if_neg hc]
      exact h.res_iff j hj
  · intro en hen
    rw [h3] at hen
    rw [h4]
    exact hts.1 en hen
  · rw [h3]
    exact hts.2

theorem WF_addEntity {wOk : EntityRef → Bool} {st : SystemState} {iid : Nat}
    {e : EntityRef} {inc : Incident} {st1 : SystemState}
    (h : WF st) (hfind : findIncident st iid = some inc)
    (hok : addAffectedEntity wOk st iid e = .ok st1) : WF st1 := by
  rcases addAffectedEntity_ok hfind hok with ⟨_, hst⟩ | ⟨_, h1, h2, h3, h4, h5, _⟩
  · rw [hst]; exact h
  · have hts := timeline_append_ts h
      (mkEntry iid st.clock .entity_added "Affected entity added") rfl
    constructor
    · intro i hi; rw [h1] at hi; rw [h5]; exact h.ids_lt i hi
    · rw [h1]; exact h.ids_nodup
    · intro l hl
      rw [h2] at hl
      rw [h5]
      rcases List.mem_append.mp hl with hm | hm
      · exact h.links_lt l hm
      · have : l = { incidentId := iid, entity := e } := by simpa using hm
        rw [this]
        have := (findIncident_mem hfind).1
        have hid := (findIncident_mem hfind).2.1
        rw [← hid]
        exact h.ids_lt inc this
    · intro i hi; rw [h1] at hi; exact h.not_del i hi
    · intro i hi; rw [h1] at hi; exact h.res_iff i hi
    · intro en hen; rw [h3] at hen; rw [h4]; exact hts.1 en hen
    · rw [h3]; exact hts.2

theorem WF_removeEntity {wOk : EntityRef → Bool} {st : SystemState} {iid : Nat}
    {e : EntityRef} {inc : Incident} {st1 : SystemState}
    (h : WF st) (hfind : findIncident st iid = some inc)
    (hok : removeAffectedEntity wOk st iid e = .ok st1) : WF st1 := by
  obtain ⟨h1, h2, h3, h4, h5, _⟩ := removeAffectedEntity_ok hfind hok
  have hts := timeline_append_ts h
    (mkEntry iid st.clock .entity_removed "Affected entity removed") rfl
  constructor
  · intro i hi; rw [h1] at hi; rw [h5]; exact h.ids_lt i hi
  · rw [h1]; exact h.ids_nodup
  · intro l hl
    rw [h2] at hl
    rw [h5]
    exact h.links_lt l (List.mem_of_mem_filter hl)
  · intro i hi; rw [h1] at hi; exact h.not_del i hi
  · intro i hi; rw [h1] at hi; exact h.res_iff i hi
  · intro en hen; rw [h3] at hen; rw [h4]; exact hts.1 en hen
  · rw [h3]; exact hts.2

theorem WF_updateSeverity {wOk : EntityRef → Bool} {st : SystemState} {iid : Nat}
    {v : Severity} {inc : Incident} {st1 : SystemState}
    (h : WF st) (hfind : findIncident st iid = some inc)
    (hok : updateSeverityOp wOk st iid v = .ok st1) : WF st1 := by
  obtain ⟨h1, h2, h3, h4, h5, _⟩ := updateSeverityOp_ok hfind hok
  have hts := timeline_append_ts h
    (mkEntry iid st.clock .status_change "Severity changed") rfl
  have hidmap : ∀ i : Incident,
      ((fun i => if i.id = iid then { i with severity := v } else i) i).id = i.id :=
    mapSeverity_id iid v
  constructor
  · intro i hi
    rw [h1] at hi
    rw [h5]
    rcases List.mem_map.mp hi with ⟨j, hj, hji⟩
    rw [← hji, hidmap j]
    exact h.ids_lt j hj
  · rw [h1, mapSeverity, map_id_pres hidmap]
    exact h.ids_nodup
  · intro l hl; rw [h2] at hl; rw [h5]; exact h.links_lt l hl
  · intro i hi
    rw [h1] at hi
    rcases List.mem_map.mp hi with ⟨j, hj, hji⟩
    rw [← hji]
    by_cases hc : j.id = iid
    · simp only [if_pos hc]
      exact h.not_del j hj
    · simp only [if_neg hc]
      exact h.not_del j hj
  · intro i hi
    rw [h1] at hi
    rcases List.mem_map.mp hi with ⟨j, hj, hji⟩
    rw [← hji]
    by_cases hc : j.id = iid
    · simp only [if_pos hc]
      exact h.res_iff j hj
    · simp only [if_neg hc]
      exact h.res_iff j hj
  · intro en hen; rw [h3] at hen; rw [h4]; exact hts.1 en hen
  · rw [h3]; exact hts.2

theorem WF_addNote {st : SystemState} {iid : Nat} {c : String} {st1 : SystemState}
    (h : WF st) (hok : addNoteOp st iid c = .ok st1) : WF st1 := by
  obtain ⟨h1, h2, h3, h4, h5, _⟩ := addNoteOp_ok hok
  have hts := timeline_append_ts h (mkEntry iid st.clock .note c) rfl
  constructor
  · intro i hi; rw [h1] at hi; rw [h5]; exact h.ids_lt i hi
  · rw [h1]; exact h.ids_nodup
  · intro l hl; rw [h2] at hl; rw [h5]; exact h.links_lt l hl
  · intro i hi; rw [h1] at hi; exact h.not_del i hi
  · intro i hi; rw [h1] at hi; exact h.res_iff i hi
  · intro en hen; rw [h3] at hen; rw [h4]; exact hts.1 en hen
  · rw [h3]; exact hts.2

theorem WF_stepOp (wOk : EntityRef → Bool) (st : SystemState) (op : Op)
    (h : WF st) : WF (stepOp wOk st op) := by
  cases happly : applyOp wOk st op with
  | error err => rw [stepOp_error happly]; exact h
  | ok st1 =>
    rw [stepOp_ok happly]
    apply WF_tick
    cases op with
    | create v es => exact WF_create h happly
    | advance iid target note =>
      cases hfind : findIncident st iid with
      | none =>
        rw [show applyOp wOk st (.advance iid target note) =
          transition wOk st iid target note from rfl,
          transition_none target note hfind] at happly
        cases happly
      | some inc => exact WF_transition h hfind happly
    | addEntity iid e =>
      cases hfind : findIncident st iid with
      | none =>
        rw [show applyOp wOk st (.addEntity iid e) =
          addAffectedEntity wOk st iid e from rfl,
          addAffectedEntity_none e hfind] at happly
        cases happly
      | some inc => exact WF_addEntity h hfind happly
    | removeEntity iid e =>
      cases hfind : findIncident st iid with
      | none =>
        rw [show applyOp wOk st (.removeEntity iid e) =
          removeAffectedEntity wOk st iid e from rfl,
          removeAffectedEntity_none e hfind] at happly
        cases happly
      | some inc => exact WF_removeEntity h hfind happly
    | addNote iid c => exact WF_addNote h happly
    | updateSeverity iid v =>
      cases hfind : findIncident st iid with
      | none =>
        rw [show applyOp wOk st (.updateSeverity iid v) =
          updateSeverityOp wOk st iid v from rfl,
          updateSeverityOp_none v hfind] at happly
        cases happly
      | some inc => exact WF_updateSeverity h hfind happly

theorem WF_run (wOk : EntityRef → Bool) :
    ∀ (ops : List Op) (st : SystemState), WF st → WF (run wOk st ops) := by
  intro ops
  induction ops with
  | nil => intro st h; exact h
  | cons op ops ih =>
    intro st h
    exact ih (stepOp wOk st op) (WF_stepOp wOk st op h)

theorem WF_reachable {st : SystemState} (h : Reachable st) : WF st := by
  obtain ⟨ops, hops⟩ := h
  rw [← hops]
  exact WF_run allOk ops initState WF_initState

theorem contrib_nil (links : List Link) (e : EntityRef) :
    contrib [] links e = [] := rfl

theorem contrib_cons (i : Incident) (l : List Incident) (links : List Link)
    (e : EntityRef) :
    contrib (i :: l) links e =
      (if openB i && linkedB links i.id e then [severity_to_status i.severity]
        else []) ++ contrib l links e := by
  simp only [contrib, List.filter_cons]
  by_cases hc : (openB i && linkedB links i.id e) = true
  · rw [if_pos hc, if_pos hc]
    rfl
  · rw [if_neg hc, if_neg hc]
    rfl

theorem contrib_append (l1 l2 : List Incident) (links : List Link)
    (e : EntityRef) :
    contrib (l1 ++ l2) links e = contrib l1 links e ++ contrib l2 links e := by
  simp [contrib, List.filter_append]

theorem contrib_pcond_congr {l : List Incident} {links1 links2 : List Link}
    {e : EntityRef}
    (h : ∀ i ∈ l, (openB i && linkedB links2 i.id e)
      = (openB i && linkedB links1 i.id e)) :
    contrib l links2 e = contrib l links1 e := by
  simp only [contrib]
  exact congrArg _ (List.filter_congr (fun i hi => h i hi))

theorem contrib_map_congr {l : List Incident} {links : List Link} {e : EntityRef}
    {f : Incident → Incident}
    (h : ∀ i ∈ l, (openB (f i) && linkedB links (f i).id e)
        = (openB i && linkedB links i.id e)
      ∧ ((openB i && linkedB links i.id e) = true →
          severity_to_status (f i).severity = severity_to_status i.severity)) :
    contrib (l.map f) links e = contrib l links e := by
  induction l with
  | nil => rfl
  | cons a t ih =>
    rw [List.map_cons, contrib_cons, contrib_cons,
      ih (fun i hi => h i (List.mem_cons_of_mem a hi))]
    obtain ⟨h1, h2⟩ := h a (List.mem_cons_self a t)
    rw [h1]
    by_cases hc : (openB a && linkedB links a.id e) = true
    · rw [if_pos hc, if_pos hc, h2 hc]
    · rw [if_neg hc, if_neg hc]

theorem linkedB_lt_false {links : List Link} {n : Nat}
    (h : ∀ l ∈ links, l.incidentId < n) (e : EntityRef) :
    linkedB links n e = false := by
  cases hb : linkedB links n e with
  | false => rfl
  | true =>
    exfalso
    obtain ⟨l, hl, hp⟩ := List.any_eq_true.mp hb
    simp only [decide_eq_true_eq] at hp
    have := h l hl
    rw [hp.1] at this
    exact Nat.lt_irrefl n this

theorem linkedB_removeLinks (iid : Nat) (e : EntityRef) (j : Nat) (x : EntityRef)
    (links : List Link) :
    linkedB (removeLinks iid e links) j x =
      (linkedB links j x && !(decide (j = iid ∧ x = e))) := by
  simp only [linkedB, removeLinks, List.any_filter]
  by_cases hjx : j = iid ∧ x = e
  · rw [decide_eq_true hjx, Bool.not_true, Bool.and_false, List.any_eq_false]
    intro a _
    by_cases hm : (a.incidentId = j ∧ a.entity = x)
    · have hA : (a.incidentId = iid ∧ a.entity = e) :=
        ⟨hm.1.trans hjx.1, hm.2.trans hjx.2⟩
      rw [decide_eq_true hA, Bool.not_true, Bool.false_and]
      exact Bool.false_ne_true
    · rw [decide_eq_false hm, Bool.and_false]
      exact Bool.false_ne_true
  · rw [decide_eq_false hjx, Bool.not_false, Bool.and_true]
    apply congrArg
    funext a
    by_cases hm : (a.incidentId = j ∧ a.entity = x)
    · have hA : decide (a.incidentId = iid ∧ a.entity = e) = false :=
        decide_eq_false (fun hc => hjx ⟨hm.1.symm.trans hc.1, hm.2.symm.trans hc.2⟩)
      rw [decide_eq_true hm, hA, Bool.not_false, Bool.true_and]
    · rw [decide_eq_false hm, Bool.and_false]

theorem incident_unique {st : SystemState} {iid : Nat} {inc : Incident}
    (h : WF st) (hfind : findIncident st iid = some inc) :
    ∀ j ∈ st.incidents, j.id = iid → j = inc := by
  intro j hj hjid
  obtain ⟨hm, hid, _⟩ := findIncident_mem hfind
  exact List.inj_on_of_nodup_map h.ids_nodup hj hm (by rw [hjid, hid])

theorem incident_split {st : SystemState} {iid : Nat} {inc : Incident}
    (h : WF st) (hfind : findIncident st iid = some inc) :
    ∃ s t, st.incidents = s ++ inc :: t
      ∧ (∀ j ∈ s, j.id ≠ iid) ∧ (∀ j ∈ t, j.id ≠ iid) := by
  obtain ⟨hm, hid, _⟩ := findIncident_mem hfind
  obtain ⟨s, t, hst⟩ := List.append_of_mem hm
  refine ⟨s, t, hst, ?_, ?_⟩
  · intro j hj hjid
    have hnd := h.ids_nodup
    rw [hst, List.map_append, List.map_cons, List.nodup_append] at hnd
    exact hnd.2.2 (List.mem_map_of_mem Incident.id hj)
      (by rw [hjid, ← hid]; exact List.mem_cons_self _ _)
  · intro j hj hjid
    have hnd := h.ids_nodup
    rw [hst, List.map_append, List.map_cons] at hnd
    have h2 := (List.nodup_append.mp hnd).2.1
    rw [List.nodup_cons] at h2
    apply h2.1
    rw [hid, ← hjid]
    exact List.mem_map_of_mem Incident.id hj

theorem worse_of_mid : ∀ wS wT a b : OperationalStatus, worse_of a b = b →
    worse_of (worse_of wS (worse_of a wT)) b = worse_of wS (worse_of b wT) := by
  decide

theorem worse_of_ins : ∀ wS wT b : OperationalStatus,
    worse_of (worse_of wS wT) b = worse_of wS (worse_of b wT) := by
  decide

/-- The spec's cascade invariant: every entity's stored status equals the
worst status implied by the open incidents affecting it. -/
def StatusInv (st : SystemState) : Prop :=
  ∀ e, st.entityStatus e = worstOpen st e

theorem StatusInv_create {wOk : EntityRef → Bool} {st : SystemState}
    {v : Severity} {es : List EntityRef} {st1 : SystemState}
    (h : WF st) (hinv : StatusInv st)
    (hok : createIncident wOk st v es = .ok st1) : StatusInv st1 := by
  obtain ⟨h1, h2, _, _, _, h6⟩ := createIncident_ok hok
  intro e
  have hcontrib : contrib st1.incidents st1.links e
      = contrib st.incidents st.links e
        ++ (if e ∈ es then [severity_to_status v] else []) := by
    rw [h1, h2, contrib_append]
    congr 1
    · exact contrib_pcond_congr (fun i hi => by
        rw [linkedB_addLinks_ne (Nat.ne_of_lt (h.ids_lt i hi)) es st.links e])
    · rw [contrib_cons, contrib_nil, List.append_nil]
      have hlinked : linkedB (addLinks st.nextId st.links es)
          (newIncident st v).id e = decide (e ∈ es) := by
        show linkedB (addLinks st.nextId st.links es) st.nextId e = _
        rw [linkedB_addLinks_self, linkedB_lt_false h.links_lt e, Bool.false_or]
      rw [show openB (newIncident st v) = true from rfl, hlinked, Bool.true_and]
      by_cases hm : e ∈ es
      · rw [if_pos hm, if_pos (decide_eq_true hm)]
        rfl
      · rw [if_neg hm, if_neg (by rw [decide_eq_false hm]; exact Bool.false_ne_true)]
  rw [h6 e]
  show _ = worst_of (contrib st1.incidents st1.links e)
  rw [hcontrib, worst_of_append]
  by_cases hm : e ∈ es
  · rw [if_pos hm, if_pos hm, worst_of_singleton, hinv e]
    rfl
  · rw [if_neg hm, if_neg hm, worst_of_nil, worse_of_operational_right, hinv e]
    rfl

theorem linkedB_false_of_not_mem {links : List Link} {iid : Nat} {e : EntityRef}
    (hl : e ∉ entitiesOf links iid) : linkedB links iid e = false := by
  cases hlb : linkedB links iid e with
  | false => rfl
  | true => exact absurd (mem_entitiesOf.mpr hlb) hl

theorem StatusInv_transition {wOk : EntityRef → Bool} {st : SystemState}
    {iid : Nat} {target : IncidentStatus} {note : String} {inc : Incident}
    {st1 : SystemState} (h : WF st) (hinv : StatusInv st)
    (hfind : findIncident st iid = some inc)
    (hok : transition wOk st iid target note = .ok st1) : StatusInv st1 := by
  obtain ⟨hmem, h1, h2, _, _, _, hcases⟩ := transition_ok hfind hok
  obtain ⟨hincmem, hincid, hincdel⟩ := findIncident_mem hfind
  have huniq := incident_unique h hfind
  rcases hcases with ⟨ht, hA⟩ | ⟨ht, hs, hB⟩ | ⟨ht, hs, hC⟩
  · -- entering resolved
    subst ht
    intro e
    rw [hA e]
    show _ = worst_of (contrib st1.incidents st1.links e)
    rw [h1, h2]
    by_cases hl : e ∈ entitiesOf st.links iid
    · rw [if_pos hl]
      unfold recalcAfterResolve
      rw [recalc_eq_worst]
      apply congrArg
      show _ = (List.map _ (List.filter _ (mapStatus iid .resolved _ st.incidents)))
      apply congrArg
      apply List.filter_congr
      intro i hi
      simp only [mapStatus] at hi
      rcases List.mem_map.mp hi with ⟨j, hj, hji⟩
      subst hji
      by_cases hc : j.id = iid
      · rw [if_pos hc]
        simp [openB, exclB]
      · rw [if_neg hc]
        simp only [exclB, openB, decide_eq_false hc, Bool.not_false, Bool.and_true]
        cases linkedB st.links j.id e <;>
          cases hd : decide (j.status ≠ IncidentStatus.resolved) <;>
          cases j.deleted <;> simp
    · rw [if_neg hl]
      have hnl := linkedB_false_of_not_mem hl
      rw [hinv e]
      show worst_of (contrib st.incidents st.links e) = _
      simp only [mapStatus]
      rw [contrib_map_congr ?_]
      intro j hj
      by_cases hc : j.id = iid
      · have hLB : linkedB st.links j.id e = false := by rw [hc]; exact hnl
        constructor
        · rw [if_pos hc]
          show (openB _ && linkedB st.links j.id e) = (openB j && linkedB st.links j.id e)
          rw [hLB, Bool.and_false, Bool.and_false]
        · intro hfalse
          rw [hLB, Bool.and_false] at hfalse
          cases hfalse
      · simp [if_neg hc]
  · -- reopening out of resolved
    intro e
    rw [hB e]
    show _ = worst_of (contrib st1.incidents st1.links e)
    rw [h1, h2]
    by_cases hl : e ∈ entitiesOf st.links iid
    · rw [if_pos hl]
      have hlinked : linkedB st.links iid e = true := mem_entitiesOf.mp hl
      obtain ⟨s, t, hst, hsids, htids⟩ := incident_split h hfind
      have hsmap : List.map (fun i => if i.id = iid
            then { i with status := target, resolvedAt := newRA st inc target }
            else i) s = s := by
        rw [List.map_congr_left (fun j hj => if_neg (hsids j hj))]
        exact List.map_id s
      have htmap : List.map (fun i => if i.id = iid
            then { i with status := target, resolvedAt := newRA st inc target }
            else i) t = t := by
        rw [List.map_congr_left (fun j hj => if_neg (htids j hj))]
        exact List.map_id t
      have hopenNew : openB { inc with status := target, resolvedAt := newRA st inc target } = true := by
        simp [openB, ht, hincdel]
      have hopenOld : openB inc = false := by
        simp [openB, hs]
      have hcondNew : (openB { inc with status := target, resolvedAt := newRA st inc target } && linkedB st.links ({ inc with status := target, resolvedAt := newRA st inc target } : Incident).id e) = true := by
        rw [hopenNew, Bool.true_and]
        show linkedB st.links inc.id e = true
        rw [hincid]
        exact hlinked
      have hcondOld : ¬((openB inc && linkedB st.links inc.id e) = true) := by
        rw [hopenOld, Bool.false_and]
        exact Bool.false_ne_true
      rw [hinv e]
      show worse_of (worst_of (contrib st.incidents st.links e))
        (severity_to_status inc.severity) = _
      rw [hst]
      simp only [mapStatus]
      rw [List.map_append, List.map_cons, if_pos hincid, hsmap, htmap]
      rw [contrib_append, contrib_cons, contrib_append, contrib_cons]
      rw [if_pos hcondNew, if_neg hcondOld, List.nil_append, List.singleton_append]
      rw [worst_of_append, worst_of_append, worst_of_cons]
      exact worse_of_ins _ _ _
    · rw [if_neg hl]
      have hnl := linkedB_false_of_not_mem hl
      rw [hinv e]
      show worst_of (contrib st.incidents st.links e) = _
      simp only [mapStatus]
      rw [contrib_map_congr ?_]
      intro j hj
      by_cases hc : j.id = iid
      · have hLB : linkedB st.links j.id e = false := by rw [hc]; exact hnl
        constructor
        · rw [if_pos hc]
          show (openB _ && linkedB st.links j.id e) = (openB j && linkedB st.links j.id e)
          rw [hLB, Bool.and_false, Bool.and_false]
        · intro hfalse
          rw [hLB, Bool.and_false] at hfalse
          cases hfalse
      · simp [if_neg hc]
  · -- forward transition between open states
    intro e
    rw [congrFun hC e, hinv e]
    show worst_of (contrib st.incidents st.links e)
      = worst_of (contrib st1.incidents st1.links e)
    rw [h1, h2]
    simp only [mapStatus]
    rw [contrib_map_congr ?_]
    intro j hj
    by_cases hc : j.id = iid
    · have hjinc : j = inc := huniq j hj hc
      have hopenEq : openB { j with status := target, resolvedAt := newRA st inc target } = openB j := by
        simp [openB, ht, hjinc, hs]
      constructor
      · rw [if_pos hc]
        show (openB _ && linkedB st.links j.id e) = (openB j && linkedB st.links j.id e)
        rw [hopenEq]
      · intro _
        rw [if_pos hc]
    · simp [if_neg hc]

theorem StatusInv_addEntity {wOk : EntityRef → Bool} {st : SystemState}
    {iid : Nat} {e : EntityRef} {inc : Incident} {st1 : SystemState}
    (h : WF st) (hinv : StatusInv st) (hfind : findIncident st iid = some inc)
    (hok : addAffectedEntity wOk st iid e = .ok st1) : StatusInv st1 := by
  obtain ⟨hincmem, hincid, hincdel⟩ := findIncident_mem hfind
  rcases addAffectedEntity_ok hfind hok with ⟨_, hst⟩ | ⟨hl, h1, h2, _, _, _, hcase⟩
  · rw [hst]
    exact hinv
  · intro x
    show st1.entityStatus x = worst_of (contrib st1.incidents st1.links x)
    rw [h1, h2]
    have hlinkEq : ∀ (j : Nat) (y : EntityRef),
        linkedB (st.links ++ [{ incidentId := iid, entity := e }]) j y
          = (linkedB st.links j y || decide (iid = j ∧ e = y)) := by
      intro j y
      rw [linkedB_append, linkedB_single]
    rcases hcase with ⟨hs, hstat⟩ | ⟨hs, hstat⟩
    · rw [congrFun hstat x, hinv x]
      show worst_of (contrib st.incidents st.links x) = _
      rw [contrib_pcond_congr ?_]
      intro j hj
      by_cases hc : j.id = iid
      · have hjinc : j = inc := incident_unique h hfind j hj hc
        have hopen : openB j = false := by simp [openB, hjinc, hs]
        rw [hopen, Bool.false_and, Bool.false_and]
      · rw [hlinkEq j.id x]
        have hd : decide (iid = j.id ∧ e = x) = false :=
          decide_eq_false (fun hc2 => hc hc2.1.symm)
        rw [hd, Bool.or_false]
    · by_cases hx : x = e
      · subst hx
        rw [hstat x, if_pos rfl]
        obtain ⟨s, t, hst2, hsids, htids⟩ := incident_split h hfind
        have hsc : ∀ j ∈ s, (openB j
            && linkedB (st.links ++ [{ incidentId := iid, entity := x }]) j.id x)
            = (openB j && linkedB st.links j.id x) := by
          intro j hj
          rw [hlinkEq j.id x]
          have hd : decide (iid = j.id ∧ x = x) = false :=
            decide_eq_false (fun hc2 => hsids j hj hc2.1.symm)
          rw [hd, Bool.or_false]
        have htc : ∀ j ∈ t, (openB j
            && linkedB (st.links ++ [{ incidentId := iid, entity := x }]) j.id x)
            = (openB j && linkedB st.links j.id x) := by
          intro j hj
          rw [hlinkEq j.id x]
          have hd : decide (iid = j.id ∧ x = x) = false :=
            decide_eq_false (fun hc2 => htids j hj hc2.1.symm)
          rw [hd, Bool.or_false]
        have hcondOld : ¬((openB inc && linkedB st.links inc.id x) = true) := by
          rw [hincid, hl, Bool.and_false]
          exact Bool.false_ne_true
        have hcondNew : (openB inc && linkedB
            (st.links ++ [{ incidentId := iid, entity := x }]) inc.id x) = true := by
          rw [hlinkEq inc.id x]
          have hd : decide (iid = inc.id ∧ x = x) = true :=
            decide_eq_true ⟨hincid.symm, rfl⟩
          rw [hd, Bool.or_true, Bool.and_true]
          simp [openB, hs, hincdel]
        rw [hinv x]
        show worse_of (worst_of (contrib st.incidents st.links x))
          (severity_to_status inc.severity) = _
        rw [hst2, contrib_append, contrib_cons, contrib_append, contrib_cons]
        rw [contrib_pcond_congr hsc, contrib_pcond_congr htc]
        rw [if_pos hcondNew, if_neg hcondOld, List.nil_append, List.singleton_append]
        rw [worst_of_append, worst_of_append, worst_of_cons]
        exact worse_of_ins _ _ _
      · rw [hstat x, if_neg hx, hinv x]
        show worst_of (contrib st.incidents st.links x) = _
        rw [contrib_pcond_congr ?_]
        intro j hj
        rw [hlinkEq j.id x]
        have hd : decide (iid = j.id ∧ e = x) = false :=
          decide_eq_false (fun hc2 => hx hc2.2.symm)
        rw [hd, Bool.or_false]

theorem StatusInv_removeEntity {wOk : EntityRef → Bool} {st : SystemState}
    {iid : Nat} {e : EntityRef} {inc : Incident} {st1 : SystemState}
    (hinv : StatusInv st) (hfind : findIncident st iid = some inc)
    (hok : removeAffectedEntity wOk st iid e = .ok st1) : StatusInv st1 := by
  obtain ⟨h1, h2, _, _, _, h6⟩ := removeAffectedEntity_ok hfind hok
  intro x
  rw [h6 x]
  show _ = worst_of (contrib st1.incidents st1.links x)
  rw [h1, h2]
  by_cases hx : x = e
  · subst hx
    rw [if_pos rfl]
    unfold recalcAfterRemove
    rw [recalc_eq_worst]
    apply congrArg
    show _ = List.map _ (List.filter _ st.incidents)
    apply congrArg
    apply List.filter_congr
    intro j hj
    simp only [exclB, openB, Bool.not_false, Bool.and_true]
    cases linkedB (removeLinks iid x st.links) j.id x <;>
      cases decide (j.status ≠ IncidentStatus.resolved) <;>
      cases j.deleted <;> simp
  · rw [if_neg hx, hinv x]
    show worst_of (contrib st.incidents st.links x) = _
    rw [contrib_pcond_congr ?_]
    intro j hj
    rw [linkedB_removeLinks]
    have hd : decide (j.id = iid ∧ x = e) = false :=
      decide_eq_false (fun hc => hx hc.2)
    rw [hd, Bool.not_false, Bool.and_true]

theorem StatusInv_updateSeverity {wOk : EntityRef → Bool} {st : SystemState}
    {iid : Nat} {v : Severity} {inc : Incident} {st1 : SystemState}
    (h : WF st) (hinv : StatusInv st) (hfind : findIncident st iid = some inc)
    (hnd : sevRank inc.severity ≤ sevRank v)
    (hok : updateSeverityOp wOk st iid v = .ok st1) : StatusInv st1 := by
  obtain ⟨h1, h2, _, _, _, hcase⟩ := updateSeverityOp_ok hfind hok
  obtain ⟨hincmem, hincid, hincdel⟩ := findIncident_mem hfind
  intro x
  show st1.entityStatus x = worst_of (contrib st1.incidents st1.links x)
  rw [h1, h2]
  rcases hcase with ⟨hs, hstat⟩ | ⟨hs, hstat⟩
  · rw [congrFun hstat x, hinv x]
    show worst_of (contrib st.incidents st.links x) = _
    simp only [mapSeverity]
    rw [contrib_map_congr ?_]
    intro j hj
    by_cases hc : j.id = iid
    · have hjinc : j = inc := incident_unique h hfind j hj hc
      have hopen : openB j = false := by simp [openB, hjinc, hs]
      have hopen2 : openB { j with severity := v } = false := by
        simp [openB, hjinc, hs]
      constructor
      · rw [if_pos hc]
        show (openB { j with severity := v } && linkedB st.links j.id x)
          = (openB j && linkedB st.links j.id x)
        rw [hopen, hopen2]
      · intro hfalse
        rw [hopen, Bool.false_and] at hfalse
        cases hfalse
    · simp [if_neg hc]
  · by_cases hl : x ∈ entitiesOf st.links iid
    · rw [hstat x, if_pos hl]
      have hlinked := mem_entitiesOf.mp hl
      obtain ⟨s, t, hst2, hsids, htids⟩ := incident_split h hfind
      have hsmap : List.map (fun i => if i.id = iid
          then { i with severity := v } else i) s = s := by
        rw [List.map_congr_left (fun j hj => if_neg (hsids j hj))]
        exact List.map_id s
      have htmap : List.map (fun i => if i.id = iid
          then { i with severity := v } else i) t = t := by
        rw [List.map_congr_left (fun j hj => if_neg (htids j hj))]
        exact List.map_id t
      have hcondOld : (openB inc && linkedB st.links inc.id x) = true := by
        rw [hincid, hlinked, Bool.and_true]
        simp [openB, hs, hincdel]
      have hcondNew : (openB { inc with severity := v }
          && linkedB st.links ({ inc with severity := v } : Incident).id x) = true := by
        show (openB { inc with severity := v } && linkedB st.links inc.id x) = true
        rw [hincid, hlinked, Bool.and_true]
        simp [openB, hs, hincdel]
      rw [hinv x]
      show worse_of (worst_of (contrib st.incidents st.links x))
        (severity_to_status v) = _
      rw [hst2]
      simp only [mapSeverity]
      rw [List.map_append, List.map_cons, if_pos hincid, hsmap, htmap]
      rw [contrib_append, contrib_cons, contrib_append, contrib_cons]
      rw [if_pos hcondNew, if_pos hcondOld, List.singleton_append,
        List.singleton_append]
      rw [worst_of_append, worst_of_append, worst_of_cons, worst_of_cons]
      exact worse_of_mid _ _ _ _ (worse_of_absorb _ _ (sts_antitone _ _ hnd))
    · rw [hstat x, if_neg hl, hinv x]
      have hnl := linkedB_false_of_not_mem hl
      show worst_of (contrib st.incidents st.links x) = _
      simp only [mapSeverity]
      rw [contrib_map_congr ?_]
      intro j hj
      by_cases hc : j.id = iid
      · have hLB : linkedB st.links j.id x = false := by rw [hc]; exact hnl
        constructor
        · rw [if_pos hc]
          show (openB { j with severity := v } && linkedB st.links j.id x)
            = (openB j && linkedB st.links j.id x)
          rw [hLB, Bool.and_false, Bool.and_false]
        · intro hfalse
          rw [hLB, Bool.and_false] at hfalse
          cases hfalse
      · simp [if_neg hc]

theorem StatusInv_addNote {st : SystemState} {iid : Nat} {c : String}
    {st1 : SystemState} (hinv : StatusInv st)
    (hok : addNoteOp st iid c = .ok st1) : StatusInv st1 := by
  obtain ⟨h1, h2, _, _, _, h6⟩ := addNoteOp_ok hok
  intro e
  rw [h6]
  show st.entityStatus e = worst_of (contrib st1.incidents st1.links e)
  rw [h1, h2]
  exact hinv e

theorem StatusInv_stepOp {st : SystemState} (op : Op) (h : WF st)
    (hinv : StatusInv st) (hnd : nonDowngradeB st op = true) :
    StatusInv (stepOp allOk st op) := by
  cases happly : applyOp allOk st op with
  | error err =>
    rw [stepOp_error happly]
    exact hinv
  | ok st1 =>
    rw [stepOp_ok happly]
    have hinv1 : StatusInv st1 := by
      cases op with
      | create v es => exact StatusInv_create h hinv happly
      | advance iid target note =>
        cases hfind : findIncident st iid with
        | none =>
          rw [show applyOp allOk st (.advance iid target note)
            = transition allOk st iid target note from rfl,
            transition_none target note hfind] at happly
          cases happly
        | some inc => exact StatusInv_transition h hinv hfind happly
      | addEntity iid e =>
        cases hfind : findIncident st iid with
        | none =>
          rw [show applyOp allOk st (.addEntity iid e)
            = addAffectedEntity allOk st iid e from rfl,
            addAffectedEntity_none e hfind] at happly
          cases happly
        | some inc => exact StatusInv_addEntity h hinv hfind happly
      | removeEntity iid e =>
        cases hfind : findIncident st iid with
        | none =>
          rw [show applyOp allOk st (.removeEntity iid e)
            = removeAffectedEntity allOk st iid e from rfl,
            removeAffectedEntity_none e hfind] at happly
          cases happly
        | some inc => exact StatusInv_removeEntity hinv hfind happly
      | addNote iid c => exact StatusInv_addNote hinv happly
      | updateSeverity iid v =>
        cases hfind : findIncident st iid with
        | none =>
          rw [show applyOp allOk st (.updateSeverity iid v)
            = updateSeverityOp allOk st iid v from rfl,
            updateSeverityOp_none v hfind] at happly
          cases happly
        | some inc =>
          have hndv : sevRank inc.severity ≤ sevRank v := by
            simp only [nonDowngradeB, hfind, decide_eq_true_eq] at hnd
            exact hnd
          exact StatusInv_updateSeverity h hinv hfind hndv happly
    intro e
    show (tick st1).entityStatus e
      = worst_of (contrib (tick st1).incidents (tick st1).links e)
    exact hinv1 e

theorem run_append (wOk : EntityRef → Bool) :
    ∀ (l1 l2 : List Op) (st : SystemState),
      run wOk st (l1 ++ l2) = run wOk (run wOk st l1) l2 := by
  intro l1
  induction l1 with
  | nil => intro l2 st; rfl
  | cons op l1 ih => intro l2 st; exact ih l2 (stepOp wOk st op)

theorem NDReachable_reachable {st : SystemState} (h : NDReachable st) :
    Reachable st := by
  induction h with
  | init => exact ⟨[], rfl⟩
  | step st op hR hnd ih =>
    obtain ⟨ops, hops⟩ := ih
    refine ⟨ops ++ [op], ?_⟩
    rw [run_append, hops]
    rfl

theorem StatusInv_NDReachable {st : SystemState} (h : NDReachable st) :
    StatusInv st := by
  induction h with
  | init => intro e; rfl
  | step st op hR hnd ih =>
    exact StatusInv_stepOp op (WF_reachable (NDReachable_reachable hR)) ih hnd

/-- Claim C1 counterexample: after creating a critical incident affecting
a service and then lowering its severity to minor, the stored status is
still `major_outage` while the worst status implied by the open incidents
is `degraded`, so the claimed invariant fails at this reachable state. -/
theorem claim_C1_counterexample :
    (run allOk initState [.create .critical [entS1],
        .updateSeverity 0 .minor]).entityStatus entS1 = .major_outage
    ∧ worstOpen (run allOk initState [.create .critical [entS1],
        .updateSeverity 0 .minor]) entS1 = .degraded
    ∧ (run allOk initState [.create .critical [entS1],
        .updateSeverity 0 .minor]).entityStatus entS1
      ≠ worstOpen (run allOk initState [.create .critical [entS1],
        .updateSeverity 0 .minor]) entS1 := by
  exact ⟨by decide, by decide, by decide⟩

/-- Claim C1 (amended): at every committed state reachable by public
operations in which no `update_severity` call lowers an incident's
severity, every entity's operational status equals `worst_of` of
`severity_to_status` over the open incidents affecting it (`operational`
when there are none). -/
theorem claim_C1_amended {st : SystemState} (h : NDReachable st) :
    ∀ e, st.entityStatus e = worstOpen st e :=
  StatusInv_NDReachable h

/-- Claim C1 witness: the invariant at the concrete state reached by one
create operation. -/
theorem claim_C1_witness :
    (stepOp allOk initState (.create .critical [entS1])).entityStatus entS1
      = worstOpen (stepOp allOk initState (.create .critical [entS1])) entS1 :=
  claim_C1_amended
    (NDReachable.step initState (.create .critical [entS1]) NDReachable.init
      (by decide)) entS1

theorem worse_of_rank_le_right : ∀ a b,
    statusRanking (worse_of a b) ≤ statusRanking b := by decide

/-- Claim C8: reopening a resolved incident applies `apply_impact` with
the incident's current severity to every entity still linked to it, so a
still-linked entity of a reopened major incident ends at least as bad as
`degraded`, and the reopen appends a status_change timeline entry. -/
theorem claim_C8 {st : SystemState} {iid : Nat} {inc : Incident} {e : EntityRef}
    (note : String) (hfind : findIncident st iid = some inc)
    (hres : inc.status = .resolved) (hlink : linkedB st.links iid e = true) :
    ∃ st1, transition allOk st iid .investigating note = .ok st1
      ∧ st1.entityStatus e
          = worse_of (st.entityStatus e) (severity_to_status inc.severity)
      ∧ (inc.severity = .major →
          statusRanking (st1.entityStatus e)
            ≤ statusRanking OperationalStatus.degraded)
      ∧ st1.timeline = st.timeline ++
          [mkEntry iid st.clock .status_change
            (transitionContent .resolved .investigating note)] := by
  have hmem : IncidentStatus.investigating ∈ allowedNext inc.status := by
    rw [hres]
    decide
  have hstep : ∃ st1, transition allOk st iid .investigating note = .ok st1 := by
    simp only [transition, hfind, if_pos hmem,
      if_neg (show IncidentStatus.investigating ≠ .resolved by decide), if_pos hres]
    exact cascadeApply_allOk_isOk _ _ _
  obtain ⟨st1, hok⟩ := hstep
  obtain ⟨_, _, _, h3, _, _, hcases⟩ := transition_ok hfind hok
  rcases hcases with ⟨hcon, _⟩ | ⟨_, _, hB⟩ | ⟨_, hcon, _⟩
  · cases hcon
  · refine ⟨st1, hok, ?_, ?_, ?_⟩
    · rw [hB e, if_pos (mem_entitiesOf.mpr hlink)]
    · intro hsev
      rw [hB e, if_pos (mem_entitiesOf.mpr hlink), hsev]
      exact worse_of_rank_le_right _ _
    · rw [h3, hres]
  · exact absurd hres hcon

def stC8 : SystemState :=
  run allOk initState [.create .major [entS2], .advance 0 .resolved "fixed"]

/-- Claim C8 witness: scenario E on concrete data — reopening the resolved
major incident that still lists the service worsens it via
`apply_impact`. -/
theorem claim_C8_witness :
    ∃ st1, transition allOk stC8 0 .investigating "reopen" = .ok st1
      ∧ st1.entityStatus entS2
          = worse_of (stC8.entityStatus entS2) (severity_to_status .major)
      ∧ statusRanking (st1.entityStatus entS2)
          ≤ statusRanking OperationalStatus.degraded := by
  obtain ⟨st1, h1, h2, h3, _⟩ := claim_C8 "reopen"
    (show findIncident stC8 0 = some
      { id := 0, severity := .major, status := .resolved, resolvedAt := some 1,
        deleted := false } by decide)
    (by decide)
    (show linkedB stC8.links 0 entS2 = true by decide)
  exact ⟨st1, h1, h2, h3 rfl⟩

/-- Claim C4: every public operation is atomic.  A failed operation
commits nothing: the committed state after the step — its incident rows,
links, timeline entries and entity statuses — is exactly the
pre-operation state.  Moreover one unreachable entity makes the whole
unit of work fail: resolving an incident when the status write of any one
linked entity fails yields an error and commits nothing (in particular no
timeline entry), and likewise for creation. -/
theorem claim_C4 :
    (∀ (wOk : EntityRef → Bool) (st : SystemState) (op : Op) (err : IncidentError),
      applyOp wOk st op = .error err →
        stepOp wOk st op = st
        ∧ (stepOp wOk st op).incidents = st.incidents
        ∧ (stepOp wOk st op).links = st.links
        ∧ (stepOp wOk st op).timeline = st.timeline
        ∧ ∀ e, (stepOp wOk st op).entityStatus e = st.entityStatus e)
    ∧ (∀ (wOk : EntityRef → Bool) (st : SystemState) (iid : Nat) (note : String)
        (inc : Incident) (e : EntityRef),
        findIncident st iid = some inc → .resolved ∈ allowedNext inc.status →
        linkedB st.links iid e = true → wOk e = false →
        ∃ err, transition wOk st iid .resolved note = .error err
          ∧ stepOp wOk st (.advance iid .resolved note) = st)
    ∧ (∀ (wOk : EntityRef → Bool) (st : SystemState) (v : Severity)
        (es : List EntityRef) (e : EntityRef), e ∈ es → wOk e = false →
        ∃ err, createIncident wOk st v es = .error err
          ∧ stepOp wOk st (.create v es) = st) := by
  refine ⟨?_, ?_, ?_⟩
  · intro wOk st op err h
    have hs := stepOp_error h
    exact ⟨hs, by rw [hs], by rw [hs], by rw [hs], fun e => by rw [hs]⟩
  · intro wOk st iid note inc e hfind hmem hlink hw
    have herr : ∃ err, transition wOk st iid .resolved note = .error err := by
      simp only [transition, hfind, if_pos hmem, if_pos rfl]
      exact cascadeRecalc_fails wOk (some iid) _ _ e
        (mem_entitiesOf.mpr hlink) hw
    obtain ⟨err, herr⟩ := herr
    exact ⟨err, herr, stepOp_error herr⟩
  · intro wOk st v es e hmem hw
    have herr : ∃ err, createIncident wOk st v es = .error err := by
      simp only [createIncident]
      exact cascadeApply_fails wOk v es _ e hmem hw
    obtain ⟨err, herr⟩ := herr
    exact ⟨err, herr, stepOp_error herr⟩

def wBadS1 : EntityRef → Bool := fun x => !(decide (x = entS1))

def stC4 : SystemState := run allOk initState [.create .critical [entS1]]

/-- Claim C4 witness: with the collaborator unreachable for the affected
service, resolving the concrete incident fails and commits nothing. -/
theorem claim_C4_witness :
    ∃ err, transition wBadS1 stC4 0 .resolved "n" = .error err
      ∧ stepOp wBadS1 stC4 (.advance 0 .resolved "n") = stC4 :=
  claim_C4.2.1 wBadS1 stC4 0 "n"
    { id := 0, severity := .critical, status := .investigating,
      resolvedAt := none, deleted := false } entS1
    (by decide) (by decide) (by decide) (by decide)

/-- Claim C7: in every reachable state `resolved_at` is non-null exactly
for resolved incidents; entering `resolved` stamps `resolved_at` with the
current time, reopening clears it to null, and every other public
operation leaves each incident's `resolved_at` unchanged. -/
theorem claim_C7 :
    (∀ st : SystemState, Reachable st →
      ∀ i ∈ st.incidents, (i.resolvedAt ≠ none ↔ i.status = .resolved))
    ∧ (∀ (wOk : EntityRef → Bool) (st : SystemState) (iid : Nat) (note : String)
        (inc : Incident) (st1 : SystemState),
        findIncident st iid = some inc →
        transition wOk st iid .resolved note = .ok st1 →
        ∀ i ∈ st1.incidents, i.id = iid → i.resolvedAt = some st.clock)
    ∧ (∀ (wOk : EntityRef → Bool) (st : SystemState) (iid : Nat) (note : String)
        (inc : Incident) (st1 : SystemState),
        findIncident st iid = some inc →
        transition wOk st iid .investigating note = .ok st1 →
        ∀ i ∈ st1.incidents, i.id = iid → i.resolvedAt = none)
    ∧ (∀ (wOk : EntityRef → Bool) (st : SystemState) (op : Op),
        (∀ iid target note, op ≠ .advance iid target note) →
        ∀ i ∈ st.incidents, ∃ i1, i1 ∈ (stepOp wOk st op).incidents
          ∧ i1.id = i.id ∧ i1.resolvedAt = i.resolvedAt) := by
  refine ⟨?_, ?_, ?_, ?_⟩
  · intro st hr i hi
    exact (WF_reachable hr).res_iff i hi
  · intro wOk st iid note inc st1 hfind hok i hi hid
    obtain ⟨_, h1, _⟩ := transition_ok hfind hok
    rw [h1] at hi
    simp only [mapStatus] at hi
    rcases List.mem_map.mp hi with ⟨j, _, hji⟩
    subst hji
    by_cases hc : j.id = iid
    · rw [if_pos hc]
      show newRA st inc .resolved = some st.clock
      rfl
    · rw [if_neg hc] at hid ⊢
      exact absurd hid hc
  · intro wOk st iid note inc st1 hfind hok i hi hid
    obtain ⟨hmem, h1, _⟩ := transition_ok hfind hok
    have hres : inc.status = .resolved := by
      cases hst : inc.status
      · rw [hst] at hmem; simp [allowedNext] at hmem
      · rw [hst] at hmem; simp [allowedNext] at hmem
      · rw [hst] at hmem; simp [allowedNext] at hmem
      · rfl
    rw [h1] at hi
    simp only [mapStatus] at hi
    rcases List.mem_map.mp hi with ⟨j, _, hji⟩
    subst hji
    by_cases hc : j.id = iid
    · rw [if_pos hc]
      show newRA st inc .investigating = none
      simp [newRA, hres]
    · rw [if_neg hc] at hid ⊢
      exact absurd hid hc
  · intro wOk st op hop i hi
    cases happly : applyOp wOk st op with
    | error err =>
      rw [stepOp_error happly]
      exact ⟨i, hi, rfl, rfl⟩
    | ok st1 =>
      rw [stepOp_ok happly]
      cases op with
      | create v es =>
        obtain ⟨h1, _⟩ := createIncident_ok happly
        refine ⟨i, ?_, rfl, rfl⟩
        show i ∈ st1.incidents
        rw [h1]
        exact List.mem_append_left _ hi
      | advance iid target note => exact absurd rfl (hop iid target note)
      | addEntity iid e =>
        cases hfind : findIncident st iid with
        | none =>
          rw [show applyOp wOk st (.addEntity iid e)
            = addAffectedEntity wOk st iid e from rfl,
            addAffectedEntity_none e hfind] at happly
          cases happly
        | some inc =>
          rcases addAffectedEntity_ok hfind happly with ⟨_, hst⟩ | ⟨_, h1, _⟩
          · subst hst
            exact ⟨i, hi, rfl, rfl⟩
          · refine ⟨i, ?_, rfl, rfl⟩
            show i ∈ st1.incidents
            rw [h1]
            exact hi
      | removeEntity iid e =>
        cases hfind : findIncident st iid with
        | none =>
          rw [show applyOp wOk st (.removeEntity iid e)
            = removeAffectedEntity wOk st iid e from rfl,
            removeAffectedEntity_none e hfind] at happly
          cases happly
        | some inc =>
          obtain ⟨h1, _⟩ := removeAffectedEntity_ok hfind happly
          refine ⟨i, ?_, rfl, rfl⟩
          show i ∈ st1.incidents
          rw [h1]
          exact hi
      | addNote iid c =>
        obtain ⟨h1, _⟩ := addNoteOp_ok happly
        refine ⟨i, ?_, rfl, rfl⟩
        show i ∈ st1.incidents
        rw [h1]
        exact hi
      | updateSeverity iid v =>
        cases hfind : findIncident st iid with
        | none =>
          rw [show applyOp wOk st (.updateSeverity iid v)
            = updateSeverityOp wOk st iid v from rfl,
            updateSeverityOp_none v hfind] at happly
          cases happly
        | some inc =>
          obtain ⟨h1, _⟩ := updateSeverityOp_ok hfind happly
          refine ⟨(fun i => if i.id = iid then { i with severity := v } else i) i,
            ?_, mapSeverity_id iid v i, ?_⟩
          · show _ ∈ st1.incidents
            rw [h1]
            simp only [mapSeverity]
            exact List.mem_map_of_mem _ hi
          · show (if i.id = iid then ({ i with severity := v } : Incident) else i).resolvedAt = i.resolvedAt
            by_cases hc : i.id = iid
            · rw [if_pos hc]
            · rw [if_neg hc]

def stC7a : SystemState := run allOk initState [.create .major [entS2]]

def resolvedMidC7 : SystemState :=
  match transition allOk stC7a 0 .resolved "fixed" with
  | .ok st1 => st1
  | .error _ => stC7a

/-- Claim C7 witness: on concrete states — the invariant holds after a
create + resolve run, and the resolve stamped `resolved_at` with the
clock value at resolution time. -/
theorem claim_C7_witness :
    (∀ i ∈ stC8.incidents, (i.resolvedAt ≠ none ↔ i.status = .resolved))
    ∧ (∀ i ∈ resolvedMidC7.incidents, i.id = 0 → i.resolvedAt = some 1) := by
  constructor
  · exact claim_C7.1 stC8
      ⟨[.create .major [entS2], .advance 0 .resolved "fixed"], rfl⟩
  · intro i hi hid
    have hok : transition allOk stC7a 0 .resolved "fixed" = .ok resolvedMidC7 := rfl
    exact claim_C7.2.1 allOk stC7a 0 "fixed"
      { id := 0, severity := .major, status := .investigating,
        resolvedAt := none, deleted := false } resolvedMidC7
      (by decide) hok i hi hid

/-- Modelled from the spec: `list_timeline` — the timeline entries of one
incident in display order (the store keeps insertion order, and reachable
states keep timestamps non-decreasing along it, so stored order is
timestamp order with ties broken by insertion order). -/
def list_timeline (st : SystemState) (iid : Nat) : List TimelineEntry :=
  st.timeline.filter (fun en => decide (en.incidentId = iid))

theorem stepOp_timeline (wOk : EntityRef → Bool) (st : SystemState) (op : Op) :
    ∃ s, (stepOp wOk st op).timeline = st.timeline ++ s := by
  cases happly : applyOp wOk st op with
  | error err =>
    rw [stepOp_error happly]
    exact ⟨[], (List.append_nil _).symm⟩
  | ok st1 =>
    rw [stepOp_ok happly]
    have : ∃ s, st1.timeline = st.timeline ++ s := by
      cases op with
      | create v es =>
        obtain ⟨_, _, h3, _⟩ := createIncident_ok happly
        exact ⟨_, h3⟩
      | advance iid target note =>
        cases hfind : findIncident st iid with
        | none =>
          rw [show applyOp wOk st (.advance iid target note)
            = transition wOk st iid target note from rfl,
            transition_none target note hfind] at happly
          cases happly
        | some inc =>
          obtain ⟨_, _, _, h3, _⟩ := transition_ok hfind happly
          exact ⟨_, h3⟩
      | addEntity iid e =>
        cases hfind : findIncident st iid with
        | none =>
          rw [show applyOp wOk st (.addEntity iid e)
            = addAffectedEntity wOk st iid e from rfl,
            addAffectedEntity_none e hfind] at happly
          cases happly
        | some inc =>
          rcases addAffectedEntity_ok hfind happly with ⟨_, hst⟩ | ⟨_, _, _, h3, _⟩
          · subst hst
            exact ⟨[], (List.append_nil _).symm⟩
          · exact ⟨_, h3⟩
      | removeEntity iid e =>
        cases hfind : findIncident st iid with
        | none =>
          rw [show applyOp wOk st (.removeEntity iid e)
            = removeAffectedEntity wOk st iid e from rfl,
            removeAffectedEntity_none e hfind] at happly
          cases happly
        | some inc =>
          obtain ⟨_, _, h3, _⟩ := removeAffectedEntity_ok hfind happly
          exact ⟨_, h3⟩
      | addNote iid c =>
        obtain ⟨_, _, h3, _⟩ := addNoteOp_ok happly
        exact ⟨_, h3⟩
      | updateSeverity iid v =>
        cases hfind : findIncident st iid with
        | none =>
          rw [show applyOp wOk st (.updateSeverity iid v)
            = updateSeverityOp wOk st iid v from rfl,
            updateSeverityOp_none v hfind] at happly
          cases happly
        | some inc =>
          obtain ⟨_, _, h3, _⟩ := updateSeverityOp_ok hfind happly
          exact ⟨_, h3⟩
    obtain ⟨s, hs⟩ := this
    exact ⟨s, hs⟩

theorem run_timeline (wOk : EntityRef → Bool) :
    ∀ (ops : List Op) (st : SystemState),
      ∃ s, (run wOk st ops).timeline = st.timeline ++ s := by
  intro ops
  induction ops with
  | nil => intro st; exact ⟨[], (List.append_nil _).symm⟩
  | cons op ops ih =>
    intro st
    obtain ⟨s1, hs1⟩ := stepOp_timeline wOk st op
    obtain ⟨s2, hs2⟩ := ih (stepOp wOk st op)
    refine ⟨s1 ++ s2, ?_⟩
    rw [show run wOk st (op :: ops) = run wOk (stepOp wOk st op) ops from rfl,
      hs2, hs1, List.append_assoc]

/-- Claim C9: timeline entries are append-only — between any two points
of any operation sequence the earlier `list_timeline` output is a prefix
of the later one (no entry is mutated or deleted), and in every reachable
state the sequence is non-decreasing in timestamp (stored in insertion
order, so ties keep insertion order). -/
theorem claim_C9 :
    (∀ (wOk : EntityRef → Bool) (st : SystemState) (ops : List Op) (iid : Nat),
      ∃ s, list_timeline (run wOk st ops) iid = list_timeline st iid ++ s)
    ∧ (∀ st : SystemState, Reachable st → ∀ iid : Nat,
        (list_timeline st iid).Pairwise (fun a b => a.timestamp ≤ b.timestamp)) := by
  constructor
  · intro wOk st ops iid
    obtain ⟨s, hs⟩ := run_timeline wOk ops st
    refine ⟨(s.filter (fun en => decide (en.incidentId = iid))), ?_⟩
    rw [list_timeline, hs, List.filter_append]
    rfl
  · intro st hr iid
    exact List.Pairwise.sublist (List.filter_sublist st.timeline)
      (WF_reachable hr).ts_sorted

/-- Claim C9 witness: on a concrete run the earlier timeline is a prefix
of the later one and the reachable timeline is sorted. -/
theorem claim_C9_witness :
    (∃ s, list_timeline (run allOk stC7a [.advance 0 .resolved "fixed"]) 0
      = list_timeline stC7a 0 ++ s)
    ∧ (list_timeline stC8 0).Pairwise (fun a b => a.timestamp ≤ b.timestamp) :=
  ⟨claim_C9.1 allOk stC7a [.advance 0 .resolved "fixed"] 0,
    claim_C9.2 stC8
      ⟨[.create .major [entS2], .advance 0 .resolved "fixed"], rfl⟩ 0⟩

end Appr
